import Mathlib

/-!
# Plate-solving sample (`src/index.mjs`): tone-mapped rendering and solve orchestration

A shallow embedding of the two functions of `src/index.mjs`:

* `toPNG` (lines 14-83): the maximum reduction, the tanh tone curve, the RGBA raster
  written into the `ImageData`, and the asynchronous tail (encode, then write file);
* `solve` (lines 85-155): the configuration calls made on the solver, the `finished`
  observer and the promise returned to the caller.

JavaScript numbers are modelled as an ordered field `α` extended with `NaN` and the two
infinities (signed zeros are not modelled). In `toPNG` the arithmetic on finite values is
exact and `Math.tanh` is a parameter of the embedding: the theorems about the rendered
values are about the real-valued tone curve and instantiate it with `Real.tanh`. In
`solve` the two products of the scale band are binary64 products (`JSNum.mul64`: the
exact product rounded to the nearest binary64 value, ties to even, with gradual underflow
and overflow to infinity), and the literals `0.8` and `1.2` are their binary64 values.
-/

namespace AstRaw

/-! ## JavaScript numbers -/

/-- A JavaScript number: `NaN`, an infinity (`neg = true` for `-Infinity`) or a finite value. -/
inductive JSNum (α : Type) where
  | nan : JSNum α
  | inf (neg : Bool) : JSNum α
  | fin (x : α) : JSNum α
deriving DecidableEq

namespace JSNum

variable {α : Type} [LinearOrderedField α]

/-- JavaScript `a * b` with the exact product on finite values; used for the tone curve
of line 28, whose theorems are about the real-valued curve. -/
def mul : JSNum α → JSNum α → JSNum α
  | nan, _ => nan
  | _, nan => nan
  | fin x, fin y => fin (x * y)
  | inf s, fin y => if y = 0 then nan else inf (xor s (decide (y < 0)))
  | fin x, inf s => if x = 0 then nan else inf (xor s (decide (x < 0)))
  | inf s, inf t => inf (xor s t)

/-- JavaScript `a / b` (a zero divisor is `+0`). -/
def div : JSNum α → JSNum α → JSNum α
  | nan, _ => nan
  | _, nan => nan
  | fin x, fin y =>
      if y = 0 then (if x = 0 then nan else inf (decide (x < 0))) else fin (x / y)
  | fin _, inf _ => fin 0
  | inf s, fin y => inf (xor s (decide (y < 0)))
  | inf _, inf _ => nan

/-- JavaScript `Math.tanh`, given the curve `th` on finite values. -/
def tanh (th : α → α) : JSNum α → JSNum α
  | nan => nan
  | inf s => if s then fin (-1) else fin 1
  | fin x => fin (th x)

/-- JavaScript truthiness of a number: `0` and `NaN` are falsy. -/
def truthy : JSNum α → Bool
  | nan => false
  | inf _ => true
  | fin x => decide (x ≠ 0)

/-- The conversion `ToUint8Clamp` applied when a number is stored in a
`Uint8ClampedArray` (the `data` of an `ImageData`): `NaN` becomes 0, the value is
clamped to `[0, 255]` and rounded to the nearest integer, ties to even. -/
def toUint8Clamp [FloorRing α] : JSNum α → Nat
  | nan => 0
  | inf s => if s then 0 else 255
  | fin x =>
      if x ≤ 0 then 0
      else if 255 ≤ x then 255
      else
        let f : Int := Int.floor x
        if (f : α) + 1 / 2 < x then (f + 1).toNat
        else if x < (f : α) + 1 / 2 then f.toNat
        else if f % 2 = 0 then f.toNat else (f + 1).toNat

/-- Rounding to the nearest integer, ties to even. -/
def roundHalfEven [FloorRing α] (q : α) : Int :=
  let f : Int := Int.floor q
  if (f : α) + 1 / 2 < q then f + 1
  else if q < (f : α) + 1 / 2 then f
  else if f % 2 = 0 then f else f + 1

/-- The exponent of the unit in the last place of the binary64 numbers around `x`:
`e - 52` in the binade `[2 ^ e, 2 ^ (e + 1))`, and `-1074` below `2 ^ (-1022)`
(subnormal numbers). -/
def ulpExp [FloorRing α] (x : α) : Int :=
  max (Int.log 2 |x|) (-1022) - 52

/-- The binary64 value nearest to `x` (round to nearest, ties to even): `|x|` is rounded
to a multiple of its unit in the last place; a result that reaches `2 ^ 1024` is an
infinity. -/
def round64 [FloorRing α] (x : α) : JSNum α :=
  if x = 0 then fin 0
  else
    let r : α := (roundHalfEven (|x| / (2 : α) ^ ulpExp x) : α) * (2 : α) ^ ulpExp x
    if (2 : α) ^ (1024 : Int) ≤ r then inf (decide (x < 0))
    else fin (if x < 0 then -r else r)

/-- JavaScript `-a`. -/
def neg : JSNum α → JSNum α
  | nan => nan
  | inf s => inf (!s)
  | fin x => fin (-x)

/-- JavaScript `a * b` on binary64 values: the product of two finite values is rounded
to binary64. -/
def mul64 [FloorRing α] : JSNum α → JSNum α → JSNum α
  | nan, _ => nan
  | _, nan => nan
  | fin x, fin y => round64 (x * y)
  | inf s, fin y => if y = 0 then nan else inf (xor s (decide (y < 0)))
  | fin x, inf s => if x = 0 then nan else inf (xor s (decide (x < 0)))
  | inf s, inf t => inf (xor s t)

end JSNum

/-! ## `toPNG`: the raster -/

section ToPNG

variable {α : Type} [LinearOrderedField α]

/-- Lines 16-18: `fitsimage16.reduce((c, p) => c > p ? c : p, 0)`. -/
def maxSample (fitsimage16 : List Nat) : Nat :=
  fitsimage16.foldl (fun c p => if c > p then c else p) 0

/-- The read `fitsimage16[k]` as a number: a read past the end of a typed array is
`undefined`, which arithmetic converts to `NaN`. -/
def sampleAt (fitsimage16 : List Nat) (k : Nat) : JSNum α :=
  match fitsimage16.get? k with
  | some s => JSNum.fin (s : α)
  | none => JSNum.nan

/-- Line 28: `Math.tanh((fitsimage16[i * axes[0] + j] / max) * 3) * 255`. -/
def pixelValue (th : α → α) (fitsimage16 : List Nat) (w max i j : Nat) : JSNum α :=
  JSNum.mul
    (JSNum.tanh th
      (JSNum.mul (JSNum.div (sampleAt fitsimage16 (i * w + j)) (JSNum.fin (max : α)))
        (JSNum.fin 3)))
    (JSNum.fin 255)

variable [FloorRing α]

/-- Lines 30-33: the four stores of one loop iteration into `imgdata.data`
(a store past the end of a typed array is ignored). -/
def writePixel (data : List Nat) (w i j : Nat) (value : JSNum α) : List Nat :=
  (((data.set (4 * i * w + 4 * j) (JSNum.toUint8Clamp value)).set
      (4 * i * w + 4 * j + 1) (JSNum.toUint8Clamp value)).set
      (4 * i * w + 4 * j + 2) (JSNum.toUint8Clamp value)).set
      (4 * i * w + 4 * j + 3) (JSNum.toUint8Clamp (JSNum.fin (255 : α)))

/-- Line 26-34: the inner loop over the columns `j` of row `i`. -/
def rowLoop (th : α → α) (fitsimage16 : List Nat) (w max i : Nat) (data : List Nat) :
    List Nat :=
  (List.range w).foldl
    (fun d j => writePixel d w i j (pixelValue th fitsimage16 w max i j)) data

/-- Lines 15-35: the `ImageData` contents handed to `putImageData`: `new ImageData(w, h)`
is `4 * w * h` zero bytes, then the two nested loops run. -/
def toPNGData (th : α → α) (buffer : List Nat) (axes : Nat × Nat) : List Nat :=
  let max := maxSample buffer
  (List.range axes.2).foldl
    (fun d i => rowLoop th buffer axes.1 max i d)
    (List.replicate (4 * axes.1 * axes.2) 0)

end ToPNG

/-- Lines 73-82: the asynchronous tail of `toPNG`. `encoded` is what `canvas.toBuffer`
passes to its callback (an error, or the encoded bytes) and `written` is how
`fs.promises.writeFile` settles; the result is how the promise of `toPNG` settles. -/
def toPNGOutcome (encoded : Except String (List Nat)) (written : Except String Unit) :
    Except String Unit :=
  match encoded with
  | Except.error err => Except.error err
  | Except.ok _ => written

/-! ## `solve`: configuration, completion observer and returned promise -/

/-- The value of a header lookup such as `keyword.RA`: `none` is `undefined`
(the keyword is absent). -/
abbrev JSVal (α : Type) := Option (JSNum α)

/-- JavaScript truthiness of a header lookup: `undefined` is falsy. -/
def JSVal.truthy {α : Type} [LinearOrderedField α] : JSVal α → Bool
  | none => false
  | some x => x.truthy

/-- Conversion of a header lookup to a number in arithmetic: `undefined` becomes `NaN`. -/
def JSVal.toNumber {α : Type} : JSVal α → JSNum α
  | none => JSNum.nan
  | some x => x

/-- The header keywords read by `solve` (`hdu.keyWord()`). -/
structure Keyword (α : Type) where
  RA : JSVal α
  DEC : JSVal α
  SCALE : JSVal α

/-- The constants of the solver library's `ScaleUnits`; the source uses `ARCSEC_PER_PIX`. -/
inductive ScaleUnits where
  | DEG_WIDTH
  | ARCMIN_WIDTH
  | ARCSEC_PER_PIX
  | FOCAL_MM
deriving DecidableEq

/-- The value a promise is rejected with. -/
inductive Reason where
  | undefined : Reason
  | message (text : String) : Reason
  | error (err : String) : Reason
deriving DecidableEq

/-- The state of the promise returned by `solve`. -/
inductive PromiseState where
  | pending : PromiseState
  | fulfilled : PromiseState
  | rejected (reason : Reason) : PromiseState
deriving DecidableEq

/-- Settling a promise: only a pending promise changes state. -/
def PromiseState.settle (p new : PromiseState) : PromiseState :=
  match p with
  | PromiseState.pending => new
  | _ => p

/-- The observable calls made by `solve`, in the order of the source. -/
inductive Effect (α : Type) where
  | newSolver (width height channels samplesPerChannel : Nat) : Effect α
  | setIndexFolderPaths (path : String) : Effect α
  | setProperty (name value : String) : Effect α
  | setParameterProfile (profile : String) : Effect α
  | setPosition (ra dec : JSVal α) : Effect α
  | setScale (lo hi : JSNum α) (units : ScaleUnits) : Effect α
  | on (event : String) : Effect α
  | consoleLog (text : String) : Effect α
  | start : Effect α
  | removeAllListeners : Effect α
  | stop : Effect α
  | toPNG (output : String) : Effect α
  | resolve : Effect α
  | reject (reason : Reason) : Effect α
deriving DecidableEq

/-- The state of one invocation of `solve`. -/
structure State (α : Type) where
  /-- The event names for which the solver has an observer registered. -/
  listeners : List String
  /-- The calls made so far, oldest first. -/
  trace : List (Effect α)
  /-- The promise returned to the caller. -/
  promise : PromiseState
  /-- The number of runs of the completion handler suspended at `await toPNG(...)`. -/
  awaiting : Nat
  /-- The exceptions with which the promise of a handler run was rejected;
  nothing observes that promise. -/
  unhandled : List String

section Solve

variable {α : Type} [LinearOrderedField α] [FloorRing α]

/-- Lines 95-153: the synchronous part of `solve`, given the axes and keywords read
from the file: the solver is built and configured, the two observers are registered
and the solver is started. -/
def solveSetup (file : String) (axes : Nat × Nat) (keyword : Keyword α) : State α :=
  { listeners := ["finished", "log"]
    trace :=
      [ Effect.newSolver axes.1 axes.2 1 (axes.1 * axes.2),
        Effect.setIndexFolderPaths "/home/ahinsing/.local/share/kstars/astrometry",
        Effect.setProperty "ExtractorType" "ExtractorType.INTERNAL",
        Effect.setProperty "SolverType" "SolverType.STELLARSOLVER",
        Effect.setProperty "ProcessType" "ProcessType.SOLVE",
        Effect.setProperty "LogToFile" "true",
        Effect.setProperty "LogFileName" "test.log",
        Effect.setParameterProfile "ParametersProfile.SINGLE_THREAD_SOLVING" ]
      ++ (if keyword.RA.truthy && keyword.DEC.truthy then
            [Effect.setPosition keyword.RA keyword.DEC]
          else [])
      ++ (if keyword.SCALE.truthy then
            [Effect.setScale
              (JSNum.mul64 keyword.SCALE.toNumber (JSNum.round64 0.8))
              (JSNum.mul64 keyword.SCALE.toNumber (JSNum.round64 1.2))
              ScaleUnits.ARCSEC_PER_PIX]
          else [])
      ++ [ Effect.on "finished",
           Effect.on "log",
           Effect.consoleLog ("start solving " ++ file),
           Effect.start ]
    promise := PromiseState.pending
    awaiting := 0
    unhandled := [] }

/-- Lines 125-143: one run of the `finished` handler up to its `return` or its `await`;
`solvingDone` is what `solver.solvingDone()` returns. -/
def finishedHandler (output : String) (solvingDone : Bool) (st : State α) : State α :=
  let st1 : State α :=
    { st with
      listeners := []
      trace := st.trace ++ [Effect.removeAllListeners, Effect.consoleLog "solver finished"] }
  if !solvingDone then
    { st1 with
      trace := st1.trace ++
        [Effect.stop, Effect.consoleLog "Unable to solve image", Effect.reject Reason.undefined]
      promise := st1.promise.settle (PromiseState.rejected Reason.undefined) }
  else
    { st1 with
      trace := st1.trace ++ [Effect.consoleLog "generate PNG...", Effect.toPNG output]
      awaiting := st1.awaiting + 1 }

/-- Lines 137-146: a handler run resumes after `await toPNG(...)`. When `toPNG` fulfils,
the rest of the body runs; when it rejects, the `await` throws, the rest of the body is
skipped and the promise of the handler run is rejected with the exception. -/
def finishedResume (outcome : Except String Unit) (st : State α) : State α :=
  match outcome with
  | Except.ok _ =>
      { st with
        trace := st.trace ++ [Effect.consoleLog "PNG writed", Effect.stop, Effect.resolve]
        promise := st.promise.settle PromiseState.fulfilled }
  | Except.error err => { st with unhandled := st.unhandled ++ [err] }

/-- What the environment does after `solver.start()`. -/
inductive Event where
  /-- The solver emits `finished`; `solvingDone` is the answer of `solver.solvingDone()`
  at that moment. -/
  | finished (solvingDone : Bool) : Event
  /-- The solver emits `log`. -/
  | log (text : String) : Event
  /-- A pending `toPNG` call settles: `encoded` is the result of `canvas.toBuffer`,
  `written` that of `writeFile`. -/
  | pngSettled (encoded : Except String (List Nat)) (written : Except String Unit) : Event

/-- One event. An emitted event calls the handler of every observer registered for it
when it is emitted (the `log` handler of lines 148-150 has an empty body). -/
def step (output : String) (st : State α) : Event → State α
  | Event.finished solvingDone =>
      (st.listeners.filter (fun l => l == "finished")).foldl
        (fun s _ => finishedHandler output solvingDone s) st
  | Event.log _ => st
  | Event.pngSettled encoded written =>
      if st.awaiting = 0 then st
      else finishedResume (toPNGOutcome encoded written) { st with awaiting := st.awaiting - 1 }

/-- The invocation `solve(file, output)` followed by the events `events`. -/
def solve (file output : String) (axes : Nat × Nat) (keyword : Keyword α)
    (events : List Event) : State α :=
  events.foldl (step output) (solveSetup file axes keyword)

/-- The number of runs of the completion handler (each starts with `removeAllListeners`). -/
def handlerRuns (st : State α) : Nat :=
  st.trace.countP (fun e => match e with | Effect.removeAllListeners => true | _ => false)

/-- The number of calls of `toPNG`. -/
def toPNGCalls (st : State α) : Nat :=
  st.trace.countP (fun e => match e with | Effect.toPNG _ => true | _ => false)

/-- The number of calls of `solver.stop()`. -/
def stopCalls (st : State α) : Nat :=
  st.trace.countP (fun e => match e with | Effect.stop => true | _ => false)

end Solve

/-! ## Invariants and test data used by the theorems -/

section Invariants

variable {α : Type}

/-- The content of the raster for the first `n` pixels, in row-major order: pixel `p`
holds the stored form of `val p` in its R, G and B bytes and that of 255 in its A byte. -/
def RasterUpTo [LinearOrderedField α] [FloorRing α] (val : Nat → JSNum α) (len : Nat)
    (d : List Nat) (n : Nat) : Prop :=
  d.length = len ∧ ∀ p, p < n →
    d[4 * p]? = some (JSNum.toUint8Clamp (val p)) ∧
    d[4 * p + 1]? = some (JSNum.toUint8Clamp (val p)) ∧
    d[4 * p + 2]? = some (JSNum.toUint8Clamp (val p)) ∧
    d[4 * p + 3]? = some (JSNum.toUint8Clamp (JSNum.fin (255 : α)))

/-- No handler run has happened: both observers are registered and nothing is pending. -/
def Fresh (st : State α) : Prop :=
  st.listeners = ["finished", "log"] ∧ st.awaiting = 0 ∧ st.unhandled = [] ∧
    st.promise = PromiseState.pending ∧
    handlerRuns st = 0 ∧ toPNGCalls st = 0 ∧ stopCalls st = 0

/-- The handler has run once: no observer is registered any more. -/
def Fired (st : State α) : Prop :=
  st.listeners = [] ∧ handlerRuns st = 1 ∧ toPNGCalls st ≤ 1 ∧
    stopCalls st + st.awaiting ≤ 1

/-- The 4x4 sample buffer of the end-to-end scenario. -/
def scenarioBuffer : List Nat :=
  [0, 0, 0, 0, 0, 6553, 0, 0, 0, 0, 13107, 0, 0, 0, 0, 19660]

end Invariants

end AstRaw

namespace AstRaw

/-! ## Lemmas on the maximum reduction -/

theorem foldl_max_spec (l : List Nat) (a : Nat) :
    a ≤ l.foldl (fun c p => if c > p then c else p) a ∧
    (∀ s ∈ l, s ≤ l.foldl (fun c p => if c > p then c else p) a) ∧
    (l.foldl (fun c p => if c > p then c else p) a = a ∨
      l.foldl (fun c p => if c > p then c else p) a ∈ l) := by
  induction l generalizing a with
  | nil => simp
  | cons x xs ih =>
    simp only [List.foldl_cons, List.mem_cons, forall_eq_or_imp]
    obtain ⟨h1, h2, h3⟩ := ih (if a > x then a else x)
    by_cases hax : a > x
    · rw [if_pos hax] at h1 h2 h3 ⊢
      refine ⟨h1, ⟨by omega, h2⟩, ?_⟩
      rcases h3 with h3 | h3
      · exact Or.inl h3
      · exact Or.inr (Or.inr h3)
    · rw [if_neg hax] at h1 h2 h3 ⊢
      refine ⟨by omega, ⟨h1, h2⟩, ?_⟩
      rcases h3 with h3 | h3
      · exact Or.inr (Or.inl h3)
      · exact Or.inr (Or.inr h3)

theorem maxSample_eq_of_isMax (buffer : List Nat) (M : Nat) (hM : 0 < M)
    (hmem : M ∈ buffer) (hmax : ∀ s ∈ buffer, s ≤ M) : maxSample buffer = M := by
  obtain ⟨_, h2, h3⟩ := foldl_max_spec buffer 0
  have hle : M ≤ maxSample buffer := h2 M hmem
  rcases h3 with h3 | h3
  · unfold maxSample at hle ⊢; omega
  · have := hmax _ h3
    unfold maxSample at hle ⊢; omega

theorem maxSample_eq_zero (buffer : List Nat) (hzero : ∀ s ∈ buffer, s = 0) :
    maxSample buffer = 0 := by
  obtain ⟨_, _, h3⟩ := foldl_max_spec buffer 0
  rcases h3 with h3 | h3
  · exact h3
  · exact hzero _ h3

/-! ## Lemmas on the raster loops -/

section RasterLemmas

variable {α : Type} [LinearOrderedField α] [FloorRing α]

theorem writePixel_rasterUpTo (val : Nat → JSNum α) (len : Nat) (d : List Nat)
    (w i j : Nat) (h : RasterUpTo val len d (i * w + j)) (hlen : 4 * (i * w + j) + 3 < len) :
    RasterUpTo val len (writePixel d w i j (val (i * w + j))) (i * w + j + 1) := by
  obtain ⟨hl, hp⟩ := h
  have e : 4 * i * w + 4 * j = 4 * (i * w + j) := by ring
  refine ⟨by simp [writePixel, hl], ?_⟩
  intro p hlt
  unfold writePixel
  rw [e]
  have hget : ∀ k, k ≤ 4 * (i * w + j) + 3 → ∀ v0 v1 v2 v3 : Nat,
      ((((d.set (4 * (i * w + j)) v0).set (4 * (i * w + j) + 1) v1).set
        (4 * (i * w + j) + 2) v2).set (4 * (i * w + j) + 3) v3)[k]? =
      if k = 4 * (i * w + j) + 3 then some v3
      else if k = 4 * (i * w + j) + 2 then some v2
      else if k = 4 * (i * w + j) + 1 then some v1
      else if k = 4 * (i * w + j) then some v0
      else d[k]? := by
    intro k hk v0 v1 v2 v3
    simp only [List.getElem?_set, List.length_set]
    split_ifs <;> first | rfl | omega
  rcases Nat.lt_succ_iff_lt_or_eq.mp hlt with hlt | rfl
  · obtain ⟨h0, h1, h2, h3⟩ := hp p hlt
    refine ⟨?_, ?_, ?_, ?_⟩ <;>
    · rw [hget _ (by omega), if_neg (by omega), if_neg (by omega), if_neg (by omega),
        if_neg (by omega)]
      assumption
  · refine ⟨?_, ?_, ?_, ?_⟩
    · rw [hget _ (by omega), if_neg (by omega), if_neg (by omega), if_neg (by omega),
        if_pos rfl]
    · rw [hget _ (by omega), if_neg (by omega), if_neg (by omega), if_pos rfl]
    · rw [hget _ (by omega), if_neg (by omega), if_pos rfl]
    · rw [hget _ (by omega), if_pos rfl]

theorem rowLoop_rasterUpTo (th : α → α) (buffer : List Nat) (w max i len : Nat)
    (d : List Nat)
    (h : RasterUpTo (fun p => pixelValue th buffer w max 0 p) len d (i * w))
    (hlen : 4 * (i * w + w) ≤ len) :
    RasterUpTo (fun p => pixelValue th buffer w max 0 p) len
      (rowLoop th buffer w max i d) (i * w + w) := by
  have key : ∀ c, c ≤ w →
      RasterUpTo (fun p => pixelValue th buffer w max 0 p) len
        ((List.range c).foldl
          (fun d j => writePixel d w i j (pixelValue th buffer w max i j)) d) (i * w + c) := by
    intro c
    induction c with
    | zero => intro _; simpa using h
    | succ c ih =>
      intro hc
      rw [List.range_succ, List.foldl_append]
      simp only [List.foldl_cons, List.foldl_nil]
      have hv : pixelValue th buffer w max i c =
          (fun p => pixelValue th buffer w max 0 p) (i * w + c) := by
        simp [pixelValue]
      rw [hv]
      exact writePixel_rasterUpTo _ len _ w i c (ih (by omega)) (by omega)
  exact key w le_rfl

theorem toPNGData_rasterUpTo (th : α → α) (buffer : List Nat) (w h : Nat) :
    RasterUpTo (fun p => pixelValue th buffer w (maxSample buffer) 0 p) (4 * w * h)
      (toPNGData th buffer (w, h)) (h * w) := by
  have key : ∀ r, r ≤ h →
      RasterUpTo (fun p => pixelValue th buffer w (maxSample buffer) 0 p) (4 * w * h)
        ((List.range r).foldl
          (fun d i => rowLoop th buffer w (maxSample buffer) i d)
          (List.replicate (4 * w * h) 0)) (r * w) := by
    intro r
    induction r with
    | zero =>
      intro _
      refine ⟨by simp, ?_⟩
      intro p hp
      omega
    | succ r ih =>
      intro hr
      rw [List.range_succ, List.foldl_append]
      simp only [List.foldl_cons, List.foldl_nil]
      have e : (r + 1) * w = r * w + w := by ring
      rw [e]
      refine rowLoop_rasterUpTo th buffer w _ r _ _ (ih (by omega)) ?_
      have : (r + 1) * w ≤ h * w := Nat.mul_le_mul_right w hr
      have e2 : 4 * w * h = 4 * (h * w) := by ring
      omega
  exact key h le_rfl

end RasterLemmas

/-! ## Lemmas on the tone curve -/

section ToneLemmas

variable {α : Type} [LinearOrderedField α]

theorem pixelValue_of_pos (th : α → α) (buffer : List Nat) (w M i j s : Nat)
    (hs : buffer[i * w + j]? = some s) (hM : 0 < M) :
    pixelValue th buffer w M i j = JSNum.fin (th ((s : α) / (M : α) * 3) * 255) := by
  have hM0 : (M : α) ≠ 0 := Nat.cast_ne_zero.mpr (by omega)
  simp [pixelValue, sampleAt, hs, JSNum.div, JSNum.mul, JSNum.tanh, hM0]

theorem pixelValue_of_zero (th : α → α) (buffer : List Nat) (w i j : Nat)
    (hs : buffer[i * w + j]? = some 0) :
    pixelValue th buffer w 0 i j = JSNum.nan := by
  simp [pixelValue, sampleAt, hs, JSNum.div, JSNum.mul, JSNum.tanh]

theorem toUint8Clamp_fin_255 [FloorRing α] :
    JSNum.toUint8Clamp (JSNum.fin (255 : α)) = 255 := by
  have h : ¬ ((255 : α) ≤ 0) := by norm_num
  simp [JSNum.toUint8Clamp, h]

theorem toUint8Clamp_fin_of_lt_half [FloorRing α] (n : Nat) (x : α) (hn : n < 255)
    (hlo : (n : α) < x) (hhi : x < (n : α) + 1 / 2) :
    JSNum.toUint8Clamp (JSNum.fin x) = n := by
  have hn0 : (0 : α) ≤ (n : α) := Nat.cast_nonneg n
  have hx0 : ¬ (x ≤ 0) := not_le.mpr (lt_of_le_of_lt hn0 hlo)
  have hn255 : (n : α) + 1 ≤ 255 := by
    have : ((n + 1 : Nat) : α) ≤ ((255 : Nat) : α) := Nat.cast_le.mpr (by omega)
    simpa using this
  have hx255 : ¬ ((255 : α) ≤ x) := by
    apply not_le.mpr
    linarith
  have hfloor : Int.floor x = (n : Int) := by
    rw [Int.floor_eq_iff]
    constructor
    · simpa using hlo.le
    · have : x < (n : α) + 1 := by linarith
      simpa using this
  have h1 : ¬ ((n : α) + 1 / 2 < x) := not_lt.mpr hhi.le
  simp only [JSNum.toUint8Clamp, if_neg hx0, if_neg hx255, hfloor, Int.cast_natCast,
    if_neg h1, if_pos hhi, Int.toNat_ofNat]

end ToneLemmas

theorem tanh_nonneg_of_nonneg (x : ℝ) (hx : 0 ≤ x) : 0 ≤ Real.tanh x := by
  rw [Real.tanh_eq_sinh_div_cosh]
  exact div_nonneg (Real.sinh_nonneg_iff.mpr hx) (Real.cosh_pos x).le

theorem tanh_lt_one (x : ℝ) : Real.tanh x < 1 := by
  rw [Real.tanh_eq_sinh_div_cosh, div_lt_one (Real.cosh_pos x)]
  exact Real.sinh_lt_cosh x

theorem tanh_eq_exp_two_mul (x : ℝ) :
    Real.tanh x = (Real.exp (2 * x) - 1) / (Real.exp (2 * x) + 1) := by
  have hpos : 0 < Real.exp x := Real.exp_pos x
  have h2 : Real.exp (2 * x) = Real.exp x * Real.exp x := by
    rw [two_mul, Real.exp_add]
  rw [Real.tanh_eq_sinh_div_cosh, Real.sinh_eq, Real.cosh_eq, Real.exp_neg, h2]
  field_simp

theorem tone_value_nonneg_le (s M : Nat) :
    0 ≤ Real.tanh ((s : ℝ) / (M : ℝ) * 3) * 255 ∧
      Real.tanh ((s : ℝ) / (M : ℝ) * 3) * 255 ≤ 255 := by
  have hx : (0 : ℝ) ≤ (s : ℝ) / (M : ℝ) * 3 := by positivity
  have h0 := tanh_nonneg_of_nonneg _ hx
  have h1 := tanh_lt_one ((s : ℝ) / (M : ℝ) * 3)
  constructor
  · positivity
  · linarith

/-- Bounds on the tone-mapped value of the sample 6553 under the maximum 19660. -/
theorem tone_6553_bounds :
    (194 : ℝ) < Real.tanh ((6553 : ℝ) / 19660 * 3) * 255 ∧
      Real.tanh ((6553 : ℝ) / 19660 * 3) * 255 < 194 + 1 / 2 := by
  have e1lo := Real.exp_one_gt_d9
  have e1hi := Real.exp_one_lt_d9
  have hE2 : Real.exp 2 = Real.exp 1 * Real.exp 1 := by
    rw [← Real.exp_add]; norm_num
  have hx : (2 : ℝ) * ((6553 : ℝ) / 19660 * 3) = 2 + (-(1 / 9830)) := by norm_num
  have hE : Real.exp (2 * ((6553 : ℝ) / 19660 * 3)) = Real.exp 2 * Real.exp (-(1 / 9830)) := by
    rw [hx, Real.exp_add]
  have hsmall_lo : 1 - 1 / 9830 ≤ Real.exp (-(1 / 9830 : ℝ)) := by
    have := Real.add_one_le_exp (-(1 / 9830 : ℝ))
    linarith
  have hsmall_hi : Real.exp (-(1 / 9830 : ℝ)) ≤ 1 := by
    rw [Real.exp_le_one_iff]; norm_num
  have hsmall_pos : 0 < Real.exp (-(1 / 9830 : ℝ)) := Real.exp_pos _
  have h2lo : (7.389 : ℝ) < Real.exp 2 := by
    rw [hE2]; nlinarith
  have h2hi : Real.exp 2 < (7.3891 : ℝ) := by
    rw [hE2]; nlinarith
  have hElo : (7.388 : ℝ) < Real.exp (2 * ((6553 : ℝ) / 19660 * 3)) := by
    rw [hE]; nlinarith
  have hEhi : Real.exp (2 * ((6553 : ℝ) / 19660 * 3)) < (7.3891 : ℝ) := by
    rw [hE]; nlinarith
  have hden : 0 < Real.exp (2 * ((6553 : ℝ) / 19660 * 3)) + 1 := by positivity
  rw [tanh_eq_exp_two_mul]
  constructor
  · rw [div_mul_eq_mul_div, lt_div_iff₀ hden]
    linarith
  · rw [div_mul_eq_mul_div, div_lt_iff₀ hden]
    linarith

/-! ## Lemmas on the completion protocol -/

section SolveLemmas

variable {α : Type}

theorem solveSetup_fresh [LinearOrderedField α] [FloorRing α] (file : String)
    (axes : Nat × Nat) (keyword : Keyword α) :
    Fresh (solveSetup file axes keyword) := by
  refine ⟨rfl, rfl, rfl, rfl, ?_, ?_, ?_⟩ <;>
  · simp only [solveSetup, handlerRuns, toPNGCalls, stopCalls]
    split_ifs <;> simp [List.countP_cons]

theorem step_finished_of_fresh (output : String) (b : Bool) (st : State α)
    (h : st.listeners = ["finished", "log"]) :
    step output st (Event.finished b) = finishedHandler output b st := by
  simp [step, h, List.filter]

theorem step_finished_of_fired (output : String) (b : Bool) (st : State α)
    (h : st.listeners = []) : step output st (Event.finished b) = st := by
  simp [step, h]

theorem step_of_idle (output : String) (st : State α) (e : Event)
    (h : st.awaiting = 0) (hne : ∀ b, e ≠ Event.finished b) : step output st e = st := by
  cases e with
  | finished b => exact absurd rfl (hne b)
  | log t => rfl
  | pngSettled enc wr => simp [step, h]

theorem step_of_done (output : String) (st : State α) (e : Event)
    (hl : st.listeners = []) (h : st.awaiting = 0) : step output st e = st := by
  cases e with
  | finished b => exact step_finished_of_fired output b st hl
  | log t => rfl
  | pngSettled enc wr => simp [step, h]

theorem foldl_step_of_idle (output : String) (st : State α) (evs : List Event)
    (h : st.awaiting = 0) (hne : ∀ e ∈ evs, ∀ b, e ≠ Event.finished b) :
    evs.foldl (step output) st = st := by
  induction evs with
  | nil => rfl
  | cons e es ih =>
    rw [List.foldl_cons, step_of_idle output st e h (hne e (List.mem_cons_self _ _))]
    exact ih (fun e he => hne e (List.mem_cons_of_mem _ he))

theorem foldl_step_of_done (output : String) (st : State α) (evs : List Event)
    (hl : st.listeners = []) (h : st.awaiting = 0) :
    evs.foldl (step output) st = st := by
  induction evs with
  | nil => rfl
  | cons e es ih => rw [List.foldl_cons, step_of_done output st e hl h]; exact ih

theorem finishedHandler_fired (output : String) (b : Bool) (st : State α) (h : Fresh st) :
    Fired (finishedHandler output b st) := by
  obtain ⟨_, ha, _, _, hr, hp, hs⟩ := h
  simp only [handlerRuns, toPNGCalls, stopCalls] at hr hp hs
  cases b <;>
    simp [Fired, finishedHandler, handlerRuns, toPNGCalls, stopCalls, List.countP_append,
      List.countP_cons, hr, hp, hs, ha]

theorem step_fired (output : String) (e : Event) (st : State α) (h : Fired st) :
    Fired (step output st e) := by
  cases e with
  | finished b => rw [step_finished_of_fired output b st h.1]; exact h
  | log t => exact h
  | pngSettled enc wr =>
    obtain ⟨hl, hr, hp, hs⟩ := h
    simp only [step]
    split_ifs with h0
    · exact ⟨hl, hr, hp, hs⟩
    · simp only [handlerRuns, toPNGCalls, stopCalls] at hr hp hs
      cases hout : toPNGOutcome enc wr with
      | error err =>
        simp only [finishedResume, Fired, handlerRuns, toPNGCalls, stopCalls]
        exact ⟨hl, hr, hp, by omega⟩
      | ok u =>
        simp only [finishedResume, Fired, handlerRuns, toPNGCalls, stopCalls,
          List.countP_append]
        refine ⟨hl, by simpa [List.countP_cons] using hr,
          by simpa [List.countP_cons] using hp, ?_⟩
        simp [List.countP_cons]
        omega

theorem step_fresh_or_fired (output : String) (e : Event) (st : State α)
    (h : Fresh st ∨ Fired st) : Fresh (step output st e) ∨ Fired (step output st e) := by
  rcases h with h | h
  · cases e with
    | finished b =>
      rw [step_finished_of_fresh output b st h.1]
      exact Or.inr (finishedHandler_fired output b st h)
    | log t => exact Or.inl h
    | pngSettled enc wr =>
      rw [step_of_idle output st _ h.2.1 (fun b hb => by cases hb)]
      exact Or.inl h
  · exact Or.inr (step_fired output e st h)

theorem foldl_step_fired (output : String) (evs : List Event) (st : State α)
    (h : Fired st) : Fired (evs.foldl (step output) st) := by
  induction evs generalizing st with
  | nil => exact h
  | cons e es ih => exact ih _ (step_fired output e st h)

theorem foldl_step_fresh_or_fired (output : String) (evs : List Event) (st : State α)
    (h : Fresh st ∨ Fired st) :
    (Fresh (evs.foldl (step output) st) ∨ Fired (evs.foldl (step output) st)) ∧
      ((∃ b, Event.finished b ∈ evs) → Fired (evs.foldl (step output) st)) := by
  induction evs generalizing st with
  | nil => exact ⟨h, fun ⟨b, hb⟩ => by cases hb⟩
  | cons e es ih =>
    rw [List.foldl_cons]
    have hstep := step_fresh_or_fired output e st h
    refine ⟨(ih _ hstep).1, ?_⟩
    rintro ⟨b, hb⟩
    rcases List.mem_cons.mp hb with rfl | hb
    · apply foldl_step_fired
      rcases h with h | h
      · rw [step_finished_of_fresh output b st h.1]
        exact finishedHandler_fired output b st h
      · exact step_fired output _ st h
    · exact (ih _ hstep).2 ⟨b, hb⟩

/-- The final state of every run whose first `finished` event finds `solvingDone()`
false: the state right after the failure branch of the handler. -/
theorem solve_failed_state [LinearOrderedField α] [FloorRing α] (file output : String)
    (axes : Nat × Nat) (keyword : Keyword α)
    (pre post : List Event) (hpre : ∀ e ∈ pre, ∀ b, e ≠ Event.finished b) :
    solve file output axes keyword (pre ++ Event.finished false :: post) =
      finishedHandler output false (solveSetup file axes keyword) := by
  have hf := solveSetup_fresh file axes keyword
  unfold solve
  rw [List.foldl_append, foldl_step_of_idle output _ pre hf.2.1 hpre, List.foldl_cons,
    step_finished_of_fresh output false _ hf.1]
  exact foldl_step_of_done output _ post rfl hf.2.1

/-- The final state of every run in which the first event is `finished` with
`solvingDone()` true and the second is the rejection of `toPNG` with `err`. -/
theorem solve_render_error_state [LinearOrderedField α] [FloorRing α]
    (file output : String) (axes : Nat × Nat)
    (keyword : Keyword α) (encoded : Except String (List Nat))
    (written : Except String Unit) (err : String) (post : List Event)
    (hout : toPNGOutcome encoded written = Except.error err) :
    solve file output axes keyword
        (Event.finished true :: Event.pngSettled encoded written :: post) =
      { finishedHandler output true (solveSetup file axes keyword) with
        awaiting := 0, unhandled := [err] } := by
  have hf := solveSetup_fresh file axes keyword
  unfold solve
  rw [List.foldl_cons, step_finished_of_fresh output true _ hf.1, List.foldl_cons]
  have hstep : step output (finishedHandler output true (solveSetup file axes keyword))
      (Event.pngSettled encoded written) =
      { finishedHandler output true (solveSetup file axes keyword) with
        awaiting := 0, unhandled := [err] } := by
    simp [step, hout, finishedResume, finishedHandler, solveSetup]
  rw [hstep]
  exact foldl_step_of_done output _ post rfl rfl

/-- The final state of every run in which the first event is `finished` with
`solvingDone()` true and the second is the fulfilment of `toPNG`. -/
theorem solve_render_ok_state [LinearOrderedField α] [FloorRing α] (file output : String)
    (axes : Nat × Nat) (keyword : Keyword α) (data : List Nat) (post : List Event) :
    solve file output axes keyword
        (Event.finished true ::
          Event.pngSettled (Except.ok data) (Except.ok ()) :: post) =
      finishedResume (Except.ok ())
        { finishedHandler output true (solveSetup file axes keyword) with awaiting := 0 } := by
  have hf := solveSetup_fresh file axes keyword
  unfold solve
  rw [List.foldl_cons, step_finished_of_fresh output true _ hf.1, List.foldl_cons]
  have hstep : step output (finishedHandler output true (solveSetup file axes keyword))
      (Event.pngSettled (Except.ok data) (Except.ok ())) =
      finishedResume (Except.ok ())
        { finishedHandler output true (solveSetup file axes keyword) with
          awaiting := 0 } := by
    simp [step, toPNGOutcome, finishedHandler, solveSetup]
  rw [hstep]
  exact foldl_step_of_done output _ post rfl rfl

end SolveLemmas

end AstRaw

namespace AstRaw

/-! ## The rendered raster -/

section RasterResults

variable {α : Type} [LinearOrderedField α] [FloorRing α]

/-- The four bytes of pixel `(i, j)` in the raster built by `toPNG`. -/
theorem toPNGData_pixel (th : α → α) (buffer : List Nat) (w h i j : Nat)
    (hi : i < h) (hj : j < w) :
    (toPNGData th buffer (w, h))[4 * i * w + 4 * j]? =
        some (JSNum.toUint8Clamp (pixelValue th buffer w (maxSample buffer) i j)) ∧
      (toPNGData th buffer (w, h))[4 * i * w + 4 * j + 1]? =
        some (JSNum.toUint8Clamp (pixelValue th buffer w (maxSample buffer) i j)) ∧
      (toPNGData th buffer (w, h))[4 * i * w + 4 * j + 2]? =
        some (JSNum.toUint8Clamp (pixelValue th buffer w (maxSample buffer) i j)) ∧
      (toPNGData th buffer (w, h))[4 * i * w + 4 * j + 3]? = some 255 := by
  have hp : i * w + j < h * w := by
    have : (i + 1) * w ≤ h * w := Nat.mul_le_mul_right w (by omega)
    have e : (i + 1) * w = i * w + w := by ring
    omega
  obtain ⟨_, hall⟩ := toPNGData_rasterUpTo th buffer w h
  obtain ⟨h0, h1, h2, h3⟩ := hall (i * w + j) hp
  have e : 4 * i * w + 4 * j = 4 * (i * w + j) := by ring
  have hv : pixelValue th buffer w (maxSample buffer) 0 (i * w + j) =
      pixelValue th buffer w (maxSample buffer) i j := by
    simp [pixelValue]
  simp only [hv] at h0 h1 h2
  rw [toUint8Clamp_fin_255] at h3
  rw [e]
  exact ⟨h0, h1, h2, h3⟩

theorem toPNGData_length (th : α → α) (buffer : List Nat) (w h : Nat) :
    (toPNGData th buffer (w, h)).length = 4 * w * h :=
  (toPNGData_rasterUpTo th buffer w h).1

theorem sample_in_range (buffer : List Nat) (w h i j : Nat)
    (hlen : buffer.length = w * h) (hi : i < h) (hj : j < w) :
    ∃ s, buffer[i * w + j]? = some s ∧ s ∈ buffer := by
  have hp : i * w + j < buffer.length := by
    have : (i + 1) * w ≤ h * w := Nat.mul_le_mul_right w (by omega)
    have e : (i + 1) * w = i * w + w := by ring
    have e2 : w * h = h * w := Nat.mul_comm w h
    omega
  exact ⟨buffer[i * w + j], List.getElem?_eq_getElem hp, List.getElem_mem hp⟩

end RasterResults

/-- The stored red byte of pixel (1, 1) of the end-to-end scenario. -/
theorem scenario_stored :
    JSNum.toUint8Clamp
      (JSNum.fin (Real.tanh ((6553 : ℝ) / 19660 * 3) * 255)) = 194 := by
  have hb := tone_6553_bounds
  have := toUint8Clamp_fin_of_lt_half (α := ℝ) 194
    (Real.tanh ((6553 : ℝ) / 19660 * 3) * 255) (by norm_num)
    (by simpa using hb.1) (by simpa using hb.2)
  simpa using this

theorem scenario_max : maxSample scenarioBuffer = 19660 := by decide

theorem scenario_value :
    pixelValue Real.tanh scenarioBuffer 4 (maxSample scenarioBuffer) 1 1 =
      JSNum.fin (Real.tanh ((6553 : ℝ) / 19660 * 3) * 255) := by
  rw [scenario_max]
  have := pixelValue_of_pos (α := ℝ) Real.tanh scenarioBuffer 4 19660 1 1 6553
    (by decide) (by norm_num)
  simpa using this

/-! ## Claims on `toPNG` -/

/-- C1: for a sample buffer of length `w * h` whose maximum sample is `M > 0`, the
reduce of `toPNG` computes `max = M`, and for every row `i < h` and column `j < w` the
value written to the R, G and B channels of pixel `(i, j)` is `tanh((s / M) * 3) * 255`
with `s = buffer[i * w + j]`; that value lies between 0 and 255 (the bytes stored are
its `Uint8ClampedArray` conversion). -/
theorem toPNG_tone_curve (buffer : List Nat) (w h M : Nat)
    (hlen : buffer.length = w * h) (hM : 0 < M) (hmem : M ∈ buffer)
    (hmax : ∀ s ∈ buffer, s ≤ M) :
    maxSample buffer = M ∧
      ∀ i j, i < h → j < w →
        ∃ s, buffer[i * w + j]? = some s ∧
          pixelValue Real.tanh buffer w (maxSample buffer) i j =
            JSNum.fin (Real.tanh ((s : ℝ) / (M : ℝ) * 3) * 255) ∧
          0 ≤ Real.tanh ((s : ℝ) / (M : ℝ) * 3) * 255 ∧
          Real.tanh ((s : ℝ) / (M : ℝ) * 3) * 255 ≤ 255 ∧
          (toPNGData Real.tanh buffer (w, h))[4 * i * w + 4 * j]? =
            some (JSNum.toUint8Clamp
              (JSNum.fin (Real.tanh ((s : ℝ) / (M : ℝ) * 3) * 255))) ∧
          (toPNGData Real.tanh buffer (w, h))[4 * i * w + 4 * j + 1]? =
            some (JSNum.toUint8Clamp
              (JSNum.fin (Real.tanh ((s : ℝ) / (M : ℝ) * 3) * 255))) ∧
          (toPNGData Real.tanh buffer (w, h))[4 * i * w + 4 * j + 2]? =
            some (JSNum.toUint8Clamp
              (JSNum.fin (Real.tanh ((s : ℝ) / (M : ℝ) * 3) * 255))) := by
  have hmaxeq := maxSample_eq_of_isMax buffer M hM hmem hmax
  refine ⟨hmaxeq, ?_⟩
  intro i j hi hj
  obtain ⟨s, hs, _⟩ := sample_in_range buffer w h i j hlen hi hj
  have hv := pixelValue_of_pos (α := ℝ) Real.tanh buffer w M i j s hs hM
  obtain ⟨h0, h1, h2, _⟩ := toPNGData_pixel (α := ℝ) Real.tanh buffer w h i j hi hj
  rw [hmaxeq, hv] at h0 h1 h2
  rw [hmaxeq]
  exact ⟨s, hs, hv, (tone_value_nonneg_le s M).1, (tone_value_nonneg_le s M).2, h0, h1, h2⟩

/-- The 2x2 buffer on which C1 is instantiated; its maximum is 4. -/
theorem toPNG_tone_curve_witness :
    maxSample ([1, 2, 3, 4] : List Nat) = 4 ∧
      ∀ i j, i < 2 → j < 2 →
        ∃ s : Nat, ([1, 2, 3, 4] : List Nat)[i * 2 + j]? = some s ∧
          pixelValue Real.tanh [1, 2, 3, 4] 2 (maxSample [1, 2, 3, 4]) i j =
            JSNum.fin (Real.tanh ((s : ℝ) / ((4 : Nat) : ℝ) * 3) * 255) ∧
          0 ≤ Real.tanh ((s : ℝ) / ((4 : Nat) : ℝ) * 3) * 255 ∧
          Real.tanh ((s : ℝ) / ((4 : Nat) : ℝ) * 3) * 255 ≤ 255 ∧
          (toPNGData Real.tanh [1, 2, 3, 4] (2, 2))[4 * i * 2 + 4 * j]? =
            some (JSNum.toUint8Clamp
              (JSNum.fin (Real.tanh ((s : ℝ) / ((4 : Nat) : ℝ) * 3) * 255))) ∧
          (toPNGData Real.tanh [1, 2, 3, 4] (2, 2))[4 * i * 2 + 4 * j + 1]? =
            some (JSNum.toUint8Clamp
              (JSNum.fin (Real.tanh ((s : ℝ) / ((4 : Nat) : ℝ) * 3) * 255))) ∧
          (toPNGData Real.tanh [1, 2, 3, 4] (2, 2))[4 * i * 2 + 4 * j + 2]? =
            some (JSNum.toUint8Clamp
              (JSNum.fin (Real.tanh ((s : ℝ) / ((4 : Nat) : ℝ) * 3) * 255))) :=
  toPNG_tone_curve [1, 2, 3, 4] 2 2 4 (by decide) (by decide) (by decide) (by decide)

/-- C6: for a sample buffer of length `w * h` in which every sample is 0, the division
of `toPNG` raises nothing (its result is `NaN`), and the raster handed to the canvas has
`4 * w * h` bytes with R = G = B = 0 and A = 255 at every pixel. -/
theorem toPNG_all_zero_black {α : Type} [LinearOrderedField α] [FloorRing α]
    (th : α → α) (buffer : List Nat) (w h : Nat)
    (hlen : buffer.length = w * h) (hzero : ∀ s ∈ buffer, s = 0) :
    (toPNGData th buffer (w, h)).length = 4 * w * h ∧
      ∀ i j, i < h → j < w →
        pixelValue th buffer w (maxSample buffer) i j = JSNum.nan ∧
        (toPNGData th buffer (w, h))[4 * i * w + 4 * j]? = some 0 ∧
        (toPNGData th buffer (w, h))[4 * i * w + 4 * j + 1]? = some 0 ∧
        (toPNGData th buffer (w, h))[4 * i * w + 4 * j + 2]? = some 0 ∧
        (toPNGData th buffer (w, h))[4 * i * w + 4 * j + 3]? = some 255 := by
  refine ⟨toPNGData_length th buffer w h, ?_⟩
  intro i j hi hj
  obtain ⟨s, hs, hsmem⟩ := sample_in_range buffer w h i j hlen hi hj
  rw [hzero s hsmem] at hs
  have hv : pixelValue th buffer w (maxSample buffer) i j = JSNum.nan := by
    rw [maxSample_eq_zero buffer hzero]
    exact pixelValue_of_zero th buffer w i j hs
  obtain ⟨h0, h1, h2, h3⟩ := toPNGData_pixel th buffer w h i j hi hj
  rw [hv] at h0 h1 h2
  exact ⟨hv, h0, h1, h2, h3⟩

/-- Witness of C6 on the 2x2 buffer of zeros, over the rationals. -/
theorem toPNG_all_zero_black_witness :
    (toPNGData (fun x : ℚ => x) [0, 0, 0, 0] (2, 2)).length = 4 * 2 * 2 ∧
      ∀ i j, i < 2 → j < 2 →
        pixelValue (fun x : ℚ => x) [0, 0, 0, 0] 2 (maxSample [0, 0, 0, 0]) i j
          = JSNum.nan ∧
        (toPNGData (fun x : ℚ => x) [0, 0, 0, 0] (2, 2))[4 * i * 2 + 4 * j]? = some 0 ∧
        (toPNGData (fun x : ℚ => x) [0, 0, 0, 0] (2, 2))[4 * i * 2 + 4 * j + 1]? = some 0 ∧
        (toPNGData (fun x : ℚ => x) [0, 0, 0, 0] (2, 2))[4 * i * 2 + 4 * j + 2]? = some 0 ∧
        (toPNGData (fun x : ℚ => x) [0, 0, 0, 0] (2, 2))[4 * i * 2 + 4 * j + 3]? =
          some 255 :=
  toPNG_all_zero_black (fun x : ℚ => x) [0, 0, 0, 0] 2 2 (by decide) (by decide)

/-- C10, as the code behaves: for the 4x4 scenario buffer, `toPNG` computes
`max = 19660`, the value written to pixel (row 1, column 1) is
`tanh((6553 / 19660) * 3) * 255`, which lies strictly between 194 and 194.5, and the
stored bytes are R = G = B = 194 and A = 255. -/
theorem toPNG_scenario_pixel :
    maxSample scenarioBuffer = 19660 ∧
      pixelValue Real.tanh scenarioBuffer 4 (maxSample scenarioBuffer) 1 1 =
        JSNum.fin (Real.tanh ((6553 : ℝ) / 19660 * 3) * 255) ∧
      (194 : ℝ) < Real.tanh ((6553 : ℝ) / 19660 * 3) * 255 ∧
      Real.tanh ((6553 : ℝ) / 19660 * 3) * 255 < 194 + 1 / 2 ∧
      (toPNGData Real.tanh scenarioBuffer (4, 4))[4 * 1 * 4 + 4 * 1]? = some 194 ∧
      (toPNGData Real.tanh scenarioBuffer (4, 4))[4 * 1 * 4 + 4 * 1 + 1]? = some 194 ∧
      (toPNGData Real.tanh scenarioBuffer (4, 4))[4 * 1 * 4 + 4 * 1 + 2]? = some 194 ∧
      (toPNGData Real.tanh scenarioBuffer (4, 4))[4 * 1 * 4 + 4 * 1 + 3]? = some 255 := by
  obtain ⟨h0, h1, h2, h3⟩ :=
    toPNGData_pixel (α := ℝ) Real.tanh scenarioBuffer 4 4 1 1 (by decide) (by decide)
  rw [scenario_value, scenario_stored] at h0 h1 h2
  exact ⟨scenario_max, scenario_value, tone_6553_bounds.1, tone_6553_bounds.2,
    h0, h1, h2, h3⟩

/-- C10 as stated fails: the red byte stored at pixel (row 1, column 1) of the scenario
is not 214. -/
theorem toPNG_scenario_not_214 :
    ¬ ((toPNGData Real.tanh scenarioBuffer (4, 4))[4 * 1 * 4 + 4 * 1]? = some 214) := by
  obtain ⟨h0, _, _, _⟩ :=
    toPNGData_pixel (α := ℝ) Real.tanh scenarioBuffer 4 4 1 1 (by decide) (by decide)
  rw [scenario_value, scenario_stored] at h0
  rw [h0]
  decide

end AstRaw

namespace AstRaw

/-! ## Lemmas on binary64 rounding -/

section Binary64Lemmas

variable {α : Type} [LinearOrderedField α] [FloorRing α]

theorem roundHalfEven_mem (q : α) :
    JSNum.roundHalfEven q = Int.floor q ∨ JSNum.roundHalfEven q = Int.floor q + 1 := by
  unfold JSNum.roundHalfEven
  simp only
  split_ifs <;> simp

theorem roundHalfEven_le_of_le (q : α) (M : Int) (h : q ≤ (M : α)) :
    JSNum.roundHalfEven q ≤ M := by
  have hf : Int.floor q ≤ M := Int.floor_le_iff.mpr (by linarith)
  by_cases hq : q = (Int.floor q : α)
  · unfold JSNum.roundHalfEven
    simp only
    rw [if_neg (by rw [← hq]; linarith), if_pos (by rw [← hq]; linarith)]
    exact hf
  · have hlt : (Int.floor q : α) < q := lt_of_le_of_ne (Int.floor_le q) (Ne.symm hq)
    have hfM : Int.floor q < M := by
      have : (Int.floor q : α) < (M : α) := lt_of_lt_of_le hlt h
      exact_mod_cast this
    rcases roundHalfEven_mem q with h1 | h1 <;> omega

theorem le_roundHalfEven_of_le (q : α) (M : Int) (h : (M : α) ≤ q) :
    M ≤ JSNum.roundHalfEven q := by
  have hf : M ≤ Int.floor q := Int.le_floor.mpr h
  rcases roundHalfEven_mem q with h1 | h1 <;> omega

theorem succ_le_roundHalfEven (q : α) (M : Int) (h : (M : α) + 1 / 2 < q) :
    M + 1 ≤ JSNum.roundHalfEven q := by
  have hf : M ≤ Int.floor q := Int.le_floor.mpr (by linarith)
  rcases lt_or_eq_of_le hf with hlt | heq
  · rcases roundHalfEven_mem q with h1 | h1 <;> omega
  · unfold JSNum.roundHalfEven
    simp only
    rw [← heq, if_pos h]

theorem roundHalfEven_eq_of_near (q : α) (n : Int) (hlo : (n : α) - 1 / 2 < q)
    (hhi : q < (n : α) + 1 / 2) : JSNum.roundHalfEven q = n := by
  have h1 := succ_le_roundHalfEven q (n - 1) (by push_cast; linarith)
  have hfl : Int.floor q ≤ n := Int.floor_le_iff.mpr (by linarith)
  rcases lt_or_eq_of_le hfl with hlt | heq
  · rcases roundHalfEven_mem q with h2 | h2 <;> omega
  · unfold JSNum.roundHalfEven
    simp only
    rw [heq, if_neg (by linarith), if_pos hhi]

theorem roundHalfEven_intCast (M : Int) : JSNum.roundHalfEven (M : α) = M :=
  roundHalfEven_eq_of_near (M : α) M (by linarith) (by linarith)

end Binary64Lemmas

section Round64Lemmas

variable {α : Type} [LinearOrderedField α]

theorem two_zpow_pos (k : Int) : (0 : α) < (2 : α) ^ k := zpow_pos (by norm_num) k

theorem two_zpow_le {m n : Int} (h : m ≤ n) : (2 : α) ^ m ≤ (2 : α) ^ n :=
  zpow_le_zpow_right₀ (by norm_num) h

theorem two_zpow_add (m n : Int) : (2 : α) ^ (m + n) = (2 : α) ^ m * (2 : α) ^ n :=
  zpow_add₀ (by norm_num) m n

/-- A power of two with a non-negative exponent is the cast of an integer. -/
theorem two_zpow_eq_intCast (d : Int) (hd : 0 ≤ d) :
    (2 : α) ^ d = (((2 : Int) ^ d.toNat : Int) : α) := by
  obtain ⟨n, rfl⟩ := Int.eq_ofNat_of_zero_le hd
  simp [zpow_natCast]

theorem neg_injective (a b : JSNum α) (h : JSNum.neg a = JSNum.neg b) : a = b := by
  cases a <;> cases b <;> simp_all [JSNum.neg]

theorem two_natCast : ((2 : ℕ) : α) = (2 : α) := by norm_num

variable [FloorRing α]

theorem ulpExp_ge (x : α) : -1074 ≤ JSNum.ulpExp x := by
  unfold JSNum.ulpExp
  have := le_max_right (Int.log 2 |x|) (-1022)
  omega

theorem ulpExp_mono (y s : α) (hy : 0 < y) (h : y ≤ s) :
    JSNum.ulpExp y ≤ JSNum.ulpExp s := by
  unfold JSNum.ulpExp
  have hs : 0 < s := lt_of_lt_of_le hy h
  rw [abs_of_pos hy, abs_of_pos hs]
  have := Int.log_mono_right (b := 2) hy h
  have := max_le_max this (le_refl (-1022 : Int))
  omega

theorem lt_two_zpow_ulpExp (s : α) (hs : 0 < s) :
    s < (2 : α) ^ (JSNum.ulpExp s + 53) := by
  have h1 := Int.lt_zpow_succ_log_self (b := 2) (by norm_num) s
  have h2 : Int.log 2 s + 1 ≤ JSNum.ulpExp s + 53 := by
    unfold JSNum.ulpExp
    rw [abs_of_pos hs]
    have := le_max_left (Int.log 2 s) (-1022)
    omega
  have h3 := two_zpow_le (α := α) h2
  have h4 : ((2 : ℕ) : α) = (2 : α) := by norm_num
  rw [h4] at h1
  exact lt_of_lt_of_le h1 h3

theorem two_zpow_ulpExp_le (y : α) (hy : 0 < y) (h : -1074 < JSNum.ulpExp y) :
    (2 : α) ^ (JSNum.ulpExp y + 52) ≤ y := by
  have hlog : JSNum.ulpExp y + 52 = Int.log 2 y := by
    unfold JSNum.ulpExp at h ⊢
    rw [abs_of_pos hy] at h ⊢
    rcases le_total (Int.log 2 y) (-1022) with hle | hle
    · rw [max_eq_right hle] at h
      omega
    · rw [max_eq_left hle]
      omega
  rw [hlog]
  have h1 := Int.zpow_log_le_self (b := 2) (by norm_num) hy
  have h4 : ((2 : ℕ) : α) = (2 : α) := by norm_num
  rw [h4] at h1
  exact h1

/-- The rounding of a positive number. -/
theorem round64_of_pos (y : α) (hy : 0 < y) :
    JSNum.round64 y =
      if (2 : α) ^ (1024 : Int) ≤
          (JSNum.roundHalfEven (y / (2 : α) ^ JSNum.ulpExp y) : α) * (2 : α) ^ JSNum.ulpExp y
      then JSNum.inf false
      else JSNum.fin
        ((JSNum.roundHalfEven (y / (2 : α) ^ JSNum.ulpExp y) : α) *
          (2 : α) ^ JSNum.ulpExp y) := by
  unfold JSNum.round64
  simp only
  rw [if_neg (ne_of_gt hy), abs_of_pos hy]
  have hn : ¬ y < 0 := not_lt.mpr hy.le
  simp [hn]

/-- A positive binary64 value is an integer multiple of its unit in the last place. -/
theorem grid_of_fixed (s : α) (hs : 0 < s) (hfix : JSNum.round64 s = JSNum.fin s) :
    s = (JSNum.roundHalfEven (s / (2 : α) ^ JSNum.ulpExp s) : α) * (2 : α) ^ JSNum.ulpExp s ∧
      s < (2 : α) ^ (1024 : Int) := by
  rw [round64_of_pos s hs] at hfix
  split_ifs at hfix with hov
  · have hr := JSNum.fin.inj hfix
    rw [hr] at hov
    exact ⟨hr.symm, not_le.mp hov⟩

/-- Rounding to nearest does not cross a binary64 value from below. -/
theorem round64_le_of_le (y s : α) (hy : 0 < y) (h : y ≤ s)
    (hfix : JSNum.round64 s = JSNum.fin s) :
    ∃ lo, JSNum.round64 y = JSNum.fin lo ∧ 0 ≤ lo ∧ lo ≤ s := by
  have hs : 0 < s := lt_of_lt_of_le hy h
  obtain ⟨hgrid, hlt⟩ := grid_of_fixed s hs hfix
  have hu := ulpExp_mono y s hy h
  have hpu := two_zpow_pos (α := α) (JSNum.ulpExp y)
  set N := JSNum.roundHalfEven (s / (2 : α) ^ JSNum.ulpExp s) with hN
  -- `s` is an integer multiple of the unit of `y`
  have hsplit : (2 : α) ^ JSNum.ulpExp s =
      (2 : α) ^ (JSNum.ulpExp s - JSNum.ulpExp y) * (2 : α) ^ JSNum.ulpExp y := by
    rw [← two_zpow_add]; congr 1; omega
  have hM : s = ((N * (2 : Int) ^ (JSNum.ulpExp s - JSNum.ulpExp y).toNat : Int) : α) *
      (2 : α) ^ JSNum.ulpExp y := by
    have := two_zpow_eq_intCast (α := α) (JSNum.ulpExp s - JSNum.ulpExp y) (by omega)
    rw [Int.cast_mul, ← this, mul_assoc, ← hsplit]
    exact hgrid
  have hq : y / (2 : α) ^ JSNum.ulpExp y ≤
      ((N * (2 : Int) ^ (JSNum.ulpExp s - JSNum.ulpExp y).toNat : Int) : α) := by
    rw [div_le_iff₀ hpu, ← hM]
    exact h
  have hr := roundHalfEven_le_of_le _ _ hq
  have hr0 : (0 : Int) ≤ JSNum.roundHalfEven (y / (2 : α) ^ JSNum.ulpExp y) :=
    le_roundHalfEven_of_le _ 0 (by simpa using (div_pos hy hpu).le)
  have hle : (JSNum.roundHalfEven (y / (2 : α) ^ JSNum.ulpExp y) : α) *
      (2 : α) ^ JSNum.ulpExp y ≤ s := by
    have hc : (JSNum.roundHalfEven (y / (2 : α) ^ JSNum.ulpExp y) : α) ≤
        ((N * (2 : Int) ^ (JSNum.ulpExp s - JSNum.ulpExp y).toNat : Int) : α) :=
      Int.cast_le.mpr hr
    calc (JSNum.roundHalfEven (y / (2 : α) ^ JSNum.ulpExp y) : α) * (2 : α) ^ JSNum.ulpExp y
        ≤ ((N * (2 : Int) ^ (JSNum.ulpExp s - JSNum.ulpExp y).toNat : Int) : α) *
            (2 : α) ^ JSNum.ulpExp y := mul_le_mul_of_nonneg_right hc hpu.le
      _ = s := hM.symm
  refine ⟨_, ?_, ?_, hle⟩
  · rw [round64_of_pos y hy, if_neg (not_le.mpr (lt_of_le_of_lt hle hlt))]
  · exact mul_nonneg (Int.cast_nonneg.mpr hr0) hpu.le

end Round64Lemmas

section Round64Up

variable {α : Type} [LinearOrderedField α] [FloorRing α]

/-- Rounding to nearest does not cross a binary64 value from above, and moves strictly
above it when the argument is more than half a unit above it. -/
theorem le_rounded_of_le (s y : α) (hs : 0 < s) (h : s ≤ y)
    (hfix : JSNum.round64 s = JSNum.fin s) :
    s ≤ (JSNum.roundHalfEven (y / (2 : α) ^ JSNum.ulpExp y) : α) * (2 : α) ^ JSNum.ulpExp y ∧
      (s + (2 : α) ^ JSNum.ulpExp s / 2 < y →
        s < (JSNum.roundHalfEven (y / (2 : α) ^ JSNum.ulpExp y) : α) *
          (2 : α) ^ JSNum.ulpExp y) := by
  have hy : 0 < y := lt_of_lt_of_le hs h
  obtain ⟨hgrid, _⟩ := grid_of_fixed s hs hfix
  have hu := ulpExp_mono s y hs h
  have hpu := two_zpow_pos (α := α) (JSNum.ulpExp y)
  rcases eq_or_lt_of_le hu with heq | hlt
  · rw [heq] at hgrid
    set N := JSNum.roundHalfEven (s / (2 : α) ^ JSNum.ulpExp y) with hN
    have hNs : (N : α) = s / (2 : α) ^ JSNum.ulpExp y := by
      rw [eq_div_iff (ne_of_gt hpu)]; exact hgrid.symm
    constructor
    · have hq : (N : α) ≤ y / (2 : α) ^ JSNum.ulpExp y := by
        rw [hNs]; exact div_le_div_of_nonneg_right h hpu.le
      have hr := le_roundHalfEven_of_le _ _ hq
      calc s = (N : α) * (2 : α) ^ JSNum.ulpExp y := hgrid
        _ ≤ _ := mul_le_mul_of_nonneg_right (Int.cast_le.mpr hr) hpu.le
    · intro hstrict
      rw [heq] at hstrict
      have hq : (N : α) + 1 / 2 < y / (2 : α) ^ JSNum.ulpExp y := by
        rw [lt_div_iff₀ hpu, add_mul, ← hgrid]
        linarith
      have hr := succ_le_roundHalfEven _ _ hq
      have hc : ((N + 1 : Int) : α) ≤
          (JSNum.roundHalfEven (y / (2 : α) ^ JSNum.ulpExp y) : α) := Int.cast_le.mpr hr
      have h1 : s < ((N + 1 : Int) : α) * (2 : α) ^ JSNum.ulpExp y := by
        rw [Int.cast_add, Int.cast_one, add_mul, ← hgrid]
        linarith
      exact lt_of_lt_of_le h1 (mul_le_mul_of_nonneg_right hc hpu.le)
  · have hnorm := two_zpow_ulpExp_le y hy (lt_of_le_of_lt (ulpExp_ge s) hlt)
    have h52 : (((2 : Int) ^ (52 : Int).toNat : Int) : α) ≤ y / (2 : α) ^ JSNum.ulpExp y := by
      rw [← two_zpow_eq_intCast (52 : Int) (by norm_num), le_div_iff₀ hpu, ← two_zpow_add]
      have e : (52 : Int) + JSNum.ulpExp y = JSNum.ulpExp y + 52 := by ring
      rw [e]; exact hnorm
    have hr := le_roundHalfEven_of_le _ _ h52
    have hc : (((2 : Int) ^ (52 : Int).toNat : Int) : α) ≤
        (JSNum.roundHalfEven (y / (2 : α) ^ JSNum.ulpExp y) : α) := Int.cast_le.mpr hr
    have hR : (2 : α) ^ (JSNum.ulpExp y + 52) ≤
        (JSNum.roundHalfEven (y / (2 : α) ^ JSNum.ulpExp y) : α) * (2 : α) ^ JSNum.ulpExp y := by
      have e : JSNum.ulpExp y + 52 = 52 + JSNum.ulpExp y := by ring
      rw [e, two_zpow_add, two_zpow_eq_intCast (52 : Int) (by norm_num)]
      exact mul_le_mul_of_nonneg_right hc hpu.le
    have hs53 := lt_two_zpow_ulpExp s hs
    have hle : (2 : α) ^ (JSNum.ulpExp s + 53) ≤ (2 : α) ^ (JSNum.ulpExp y + 52) :=
      two_zpow_le (by omega)
    have : s < (JSNum.roundHalfEven (y / (2 : α) ^ JSNum.ulpExp y) : α) *
        (2 : α) ^ JSNum.ulpExp y := lt_of_lt_of_le (lt_of_lt_of_le hs53 hle) hR
    exact ⟨this.le, fun _ => this⟩

theorem round64_ge_of_ge (s y : α) (hs : 0 < s) (h : s ≤ y)
    (hfix : JSNum.round64 s = JSNum.fin s) :
    (∃ hi, JSNum.round64 y = JSNum.fin hi ∧ s ≤ hi) ∨
      JSNum.round64 y = JSNum.inf false := by
  rw [round64_of_pos y (lt_of_lt_of_le hs h)]
  split_ifs with hov
  · exact Or.inr rfl
  · exact Or.inl ⟨_, rfl, (le_rounded_of_le s y hs h hfix).1⟩

theorem round64_gt_of_gt (s y : α) (hs : 0 < s) (h : s ≤ y)
    (hfix : JSNum.round64 s = JSNum.fin s)
    (hfar : s + (2 : α) ^ JSNum.ulpExp s / 2 < y) :
    (∃ hi, JSNum.round64 y = JSNum.fin hi ∧ s < hi) ∨ JSNum.round64 y = JSNum.inf false := by
  rw [round64_of_pos y (lt_of_lt_of_le hs h)]
  split_ifs with hov
  · exact Or.inr rfl
  · exact Or.inl ⟨_, rfl, (le_rounded_of_le s y hs h hfix).2 hfar⟩

theorem ulpExp_neg (x : α) : JSNum.ulpExp (-x) = JSNum.ulpExp x := by
  unfold JSNum.ulpExp
  rw [abs_neg]

theorem round64_neg (x : α) : JSNum.round64 (-x) = JSNum.neg (JSNum.round64 x) := by
  rcases lt_trichotomy x 0 with hx | hx | hx
  · have h1 : ¬ (-x < 0) := by
      intro h; linarith
    have h2 : -x ≠ 0 := neg_ne_zero.mpr (ne_of_lt hx)
    unfold JSNum.round64
    simp only [ulpExp_neg, abs_neg, if_neg h2, if_neg (ne_of_lt hx), if_neg h1, if_pos hx]
    split_ifs <;> simp [JSNum.neg, hx, h1]
  · subst hx
    simp [JSNum.round64, JSNum.neg]
  · have h1 : (-x < 0) := by linarith
    have h2 : -x ≠ 0 := neg_ne_zero.mpr (ne_of_gt hx)
    have h3 : ¬ (x < 0) := not_lt.mpr hx.le
    unfold JSNum.round64
    simp only [ulpExp_neg, abs_neg, if_neg h2, if_neg (ne_of_gt hx), if_neg h3, if_pos h1]
    split_ifs <;> simp [JSNum.neg, h3, h1]

theorem ulpExp_of_normal (y : α) (e : Int) (he : -1022 ≤ e) (h1 : (2 : α) ^ e ≤ y)
    (h2 : y < (2 : α) ^ (e + 1)) : JSNum.ulpExp y = e - 52 := by
  have hy : 0 < y := lt_of_lt_of_le (two_zpow_pos e) h1
  have hlo : e ≤ Int.log 2 y := by
    rw [← Int.zpow_le_iff_le_log (by norm_num) hy, two_natCast]; exact h1
  have hhi : Int.log 2 y < e + 1 := by
    rw [← Int.lt_zpow_iff_log_lt (by norm_num) hy, two_natCast]; exact h2
  unfold JSNum.ulpExp
  rw [abs_of_pos hy, max_eq_left (by omega)]
  omega

theorem ulpExp_of_subnormal (y : α) (hy : 0 < y) (h : y < (2 : α) ^ (-1022 : Int)) :
    JSNum.ulpExp y = -1074 := by
  have hhi : Int.log 2 y < -1022 := by
    rw [← Int.lt_zpow_iff_log_lt (by norm_num) hy, two_natCast]; exact h
  unfold JSNum.ulpExp
  rw [abs_of_pos hy, max_eq_right (by omega)]
  norm_num

theorem round64_eq_of_near (y : α) (hy : 0 < y) (n : Int)
    (hlo : (n : α) - 1 / 2 < y / (2 : α) ^ JSNum.ulpExp y)
    (hhi : y / (2 : α) ^ JSNum.ulpExp y < (n : α) + 1 / 2)
    (hov : (n : α) * (2 : α) ^ JSNum.ulpExp y < (2 : α) ^ (1024 : Int)) :
    JSNum.round64 y = JSNum.fin ((n : α) * (2 : α) ^ JSNum.ulpExp y) := by
  rw [round64_of_pos y hy, roundHalfEven_eq_of_near _ n hlo hhi, if_neg (not_le.mpr hov)]

end Round64Up

section ScaleLemmas

variable {α : Type} [LinearOrderedField α] [FloorRing α]

/-- The binary64 value of the literal `0.8`. -/
theorem round64_lit08 :
    JSNum.round64 (0.8 : α) = JSNum.fin (3602879701896397 / 4503599627370496) := by
  have hu : JSNum.ulpExp (0.8 : α) = -53 := by
    have := ulpExp_of_normal (0.8 : α) (-1) (by norm_num) (by norm_num) (by norm_num)
    rw [this]; norm_num
  have h := round64_eq_of_near (0.8 : α) (by norm_num) 7205759403792794
    (by rw [hu]; norm_num) (by rw [hu]; norm_num) (by rw [hu]; norm_num)
  rw [h, hu]
  congr 1
  norm_num

/-- The binary64 value of the literal `1.2`. -/
theorem round64_lit12 :
    JSNum.round64 (1.2 : α) = JSNum.fin (5404319552844595 / 4503599627370496) := by
  have hu : JSNum.ulpExp (1.2 : α) = -52 := by
    have := ulpExp_of_normal (1.2 : α) 0 (by norm_num) (by norm_num) (by norm_num)
    rw [this]; norm_num
  have h := round64_eq_of_near (1.2 : α) (by norm_num) 5404319552844595
    (by rw [hu]; norm_num) (by rw [hu]; norm_num) (by rw [hu]; norm_num)
  rw [h, hu]
  congr 1
  norm_num

end ScaleLemmas

section ScaleBand

variable {α : Type} [LinearOrderedField α] [FloorRing α]

theorem mul64_fin_lit08 (x : α) :
    JSNum.mul64 (JSNum.fin x) (JSNum.round64 (0.8 : α)) =
      JSNum.round64 (x * (3602879701896397 / 4503599627370496)) := by
  rw [round64_lit08]; rfl

theorem mul64_fin_lit12 (x : α) :
    JSNum.mul64 (JSNum.fin x) (JSNum.round64 (1.2 : α)) =
      JSNum.round64 (x * (5404319552844595 / 4503599627370496)) := by
  rw [round64_lit12]; rfl

/-- For a positive binary64 `x`, the lower bound of the band is at most `x`. -/
theorem scale_lo_le (x : α) (hx : 0 < x) (hfix : JSNum.round64 x = JSNum.fin x) :
    ∃ lo, JSNum.mul64 (JSNum.fin x) (JSNum.round64 (0.8 : α)) = JSNum.fin lo ∧
      0 ≤ lo ∧ lo ≤ x := by
  rw [mul64_fin_lit08]
  exact round64_le_of_le _ x (by positivity) (by nlinarith) hfix

/-- For a positive binary64 `x`, the upper bound of the band is at least `x`. -/
theorem scale_hi_ge (x : α) (hx : 0 < x) (hfix : JSNum.round64 x = JSNum.fin x) :
    (∃ hi, JSNum.mul64 (JSNum.fin x) (JSNum.round64 (1.2 : α)) = JSNum.fin hi ∧ x ≤ hi) ∨
      JSNum.mul64 (JSNum.fin x) (JSNum.round64 (1.2 : α)) = JSNum.inf false := by
  rw [mul64_fin_lit12]
  exact round64_ge_of_ge x _ hx (by nlinarith) hfix

theorem three_ulp_le (x : α) (hx : 0 < x) (h3 : 3 * (2 : α) ^ (-1074 : Int) ≤ x) :
    3 * (2 : α) ^ JSNum.ulpExp x ≤ x := by
  rcases eq_or_lt_of_le (ulpExp_ge x) with heq | hlt
  · rw [← heq]; exact h3
  · have h := two_zpow_ulpExp_le x hx hlt
    have e : JSNum.ulpExp x + 52 = 52 + JSNum.ulpExp x := by ring
    rw [e, two_zpow_add] at h
    have hp := two_zpow_pos (α := α) (JSNum.ulpExp x)
    have h52 : (3 : α) ≤ (2 : α) ^ (52 : Int) := by norm_num
    calc 3 * (2 : α) ^ JSNum.ulpExp x ≤ (2 : α) ^ (52 : Int) * (2 : α) ^ JSNum.ulpExp x :=
          mul_le_mul_of_nonneg_right h52 hp.le
      _ ≤ x := h

/-- For a positive binary64 `x` of at least three units of the smallest subnormal, the
upper bound of the band is strictly above `x`. -/
theorem scale_hi_gt (x : α) (hx : 0 < x) (hfix : JSNum.round64 x = JSNum.fin x)
    (h3 : 3 * (2 : α) ^ (-1074 : Int) ≤ x) :
    (∃ hi, JSNum.mul64 (JSNum.fin x) (JSNum.round64 (1.2 : α)) = JSNum.fin hi ∧ x < hi) ∨
      JSNum.mul64 (JSNum.fin x) (JSNum.round64 (1.2 : α)) = JSNum.inf false := by
  rw [mul64_fin_lit12]
  have hu := three_ulp_le x hx h3
  have hp := two_zpow_pos (α := α) (JSNum.ulpExp x)
  refine round64_gt_of_gt x _ hx (by nlinarith) hfix ?_
  nlinarith

theorem scale_ne_of_pos (x : α) (hx : 0 < x) (hfix : JSNum.round64 x = JSNum.fin x)
    (h3 : 3 * (2 : α) ^ (-1074 : Int) ≤ x) :
    JSNum.mul64 (JSNum.fin x) (JSNum.round64 (0.8 : α)) ≠
      JSNum.mul64 (JSNum.fin x) (JSNum.round64 (1.2 : α)) := by
  obtain ⟨lo, hlo, _, hle⟩ := scale_lo_le x hx hfix
  rcases scale_hi_gt x hx hfix h3 with ⟨hi, hhi, hlt⟩ | hinf
  · rw [hlo, hhi]
    intro h
    have := JSNum.fin.inj h
    linarith
  · rw [hlo, hinf]
    intro h
    cases h

/-- The band of a binary64 `x` is not collapsed when `|x|` is at least three units of
the smallest subnormal. -/
theorem scale_ne (x : α) (hfix : JSNum.round64 x = JSNum.fin x)
    (h3 : 3 * (2 : α) ^ (-1074 : Int) ≤ |x|) :
    JSNum.mul64 (JSNum.fin x) (JSNum.round64 (0.8 : α)) ≠
      JSNum.mul64 (JSNum.fin x) (JSNum.round64 (1.2 : α)) := by
  have hp := two_zpow_pos (α := α) (-1074)
  rcases lt_trichotomy x 0 with hx | hx | hx
  · have hfix2 : JSNum.round64 (-x) = JSNum.fin (-x) := by
      rw [round64_neg, hfix]; rfl
    rw [abs_of_neg hx] at h3
    have hpos := scale_ne_of_pos (-x) (by linarith) hfix2 h3
    rw [mul64_fin_lit08, mul64_fin_lit12] at hpos ⊢
    intro h
    apply hpos
    apply neg_injective
    rw [← round64_neg, ← round64_neg]
    have e1 : -(-x * (3602879701896397 / 4503599627370496 : α)) =
        x * (3602879701896397 / 4503599627370496) := by ring
    have e2 : -(-x * (5404319552844595 / 4503599627370496 : α)) =
        x * (5404319552844595 / 4503599627370496) := by ring
    rw [e1, e2]
    exact h
  · subst hx
    rw [abs_zero] at h3
    linarith
  · rw [abs_of_pos hx] at h3
    exact scale_ne_of_pos x hx hfix h3

/-- At the smallest positive binary64 value both products round back to the value. -/
theorem scale_collapse_min_subnormal :
    JSNum.mul64 (JSNum.fin ((2 : α) ^ (-1074 : Int))) (JSNum.round64 (0.8 : α)) =
        JSNum.fin ((2 : α) ^ (-1074 : Int)) ∧
      JSNum.mul64 (JSNum.fin ((2 : α) ^ (-1074 : Int))) (JSNum.round64 (1.2 : α)) =
        JSNum.fin ((2 : α) ^ (-1074 : Int)) := by
  have hp := two_zpow_pos (α := α) (-1074)
  have hsub : ∀ c : α, 0 < c → c < 2 →
      JSNum.ulpExp ((2 : α) ^ (-1074 : Int) * c) = -1074 := by
    intro c hc0 hc2
    apply ulpExp_of_subnormal _ (by positivity)
    have e : (2 : α) ^ (-1022 : Int) = (2 : α) ^ (-1074 : Int) * (2 : α) ^ (52 : Int) := by
      rw [← two_zpow_add]; norm_num
    rw [e]
    have h52 : c < (2 : α) ^ (52 : Int) := by
      have : (2 : α) ≤ (2 : α) ^ (52 : Int) := by norm_num
      linarith
    exact mul_lt_mul_of_pos_left h52 hp
  have hround : ∀ c : α, 1 / 2 < c → c < 3 / 2 →
      JSNum.round64 ((2 : α) ^ (-1074 : Int) * c) = JSNum.fin ((2 : α) ^ (-1074 : Int)) := by
    intro c h1 h2
    have hu := hsub c (by linarith) (by linarith)
    have hq : (2 : α) ^ (-1074 : Int) * c / (2 : α) ^ (-1074 : Int) = c := by
      field_simp
    have h := round64_eq_of_near ((2 : α) ^ (-1074 : Int) * c) (by positivity) 1
      (by rw [hu, hq]; push_cast; linarith) (by rw [hu, hq]; push_cast; linarith)
      (by rw [hu]; push_cast; rw [one_mul]
          exact zpow_lt_zpow_right₀ (by norm_num) (by norm_num))
    rw [h, hu]
    push_cast
    rw [one_mul]
  constructor
  · rw [mul64_fin_lit08]
    exact hround _ (by norm_num) (by norm_num)
  · rw [mul64_fin_lit12]
    exact hround _ (by norm_num) (by norm_num)

/-- At twice the smallest positive binary64 value both products round back to the
value as well: the bound `3 * 2 ^ (-1074)` of the non-collapsed band is the least one. -/
theorem scale_collapse_two_units :
    JSNum.mul64 (JSNum.fin (2 * (2 : α) ^ (-1074 : Int))) (JSNum.round64 (0.8 : α)) =
        JSNum.fin (2 * (2 : α) ^ (-1074 : Int)) ∧
      JSNum.mul64 (JSNum.fin (2 * (2 : α) ^ (-1074 : Int))) (JSNum.round64 (1.2 : α)) =
        JSNum.fin (2 * (2 : α) ^ (-1074 : Int)) := by
  have hp := two_zpow_pos (α := α) (-1074)
  have hround : ∀ c : α, 3 / 4 < c → c < 5 / 4 →
      JSNum.round64 (2 * (2 : α) ^ (-1074 : Int) * c) =
        JSNum.fin (2 * (2 : α) ^ (-1074 : Int)) := by
    intro c h1 h2
    have hu : JSNum.ulpExp (2 * (2 : α) ^ (-1074 : Int) * c) = -1074 := by
      apply ulpExp_of_subnormal _ (by positivity)
      have e : (2 : α) ^ (-1022 : Int) = (2 : α) ^ (-1074 : Int) * (2 : α) ^ (52 : Int) := by
        rw [← two_zpow_add]; norm_num
      rw [e]
      have h52 : 2 * c < (2 : α) ^ (52 : Int) := by
        have : (4 : α) ≤ (2 : α) ^ (52 : Int) := by norm_num
        linarith
      calc 2 * (2 : α) ^ (-1074 : Int) * c = (2 : α) ^ (-1074 : Int) * (2 * c) := by ring
        _ < (2 : α) ^ (-1074 : Int) * (2 : α) ^ (52 : Int) := mul_lt_mul_of_pos_left h52 hp
    have hq : 2 * (2 : α) ^ (-1074 : Int) * c / (2 : α) ^ (-1074 : Int) = 2 * c := by
      field_simp
    have h := round64_eq_of_near (2 * (2 : α) ^ (-1074 : Int) * c) (by positivity) 2
      (by rw [hu, hq]; push_cast; linarith) (by rw [hu, hq]; push_cast; linarith)
      (by rw [hu]; push_cast
          have e : (2 : α) ^ (1024 : Int) =
              (2 : α) ^ (-1074 : Int) * (2 : α) ^ (2098 : Int) := by
            rw [← two_zpow_add]; norm_num
          rw [e, mul_comm]
          have : (2 : α) < (2 : α) ^ (2098 : Int) := by norm_num
          exact mul_lt_mul_of_pos_left this hp)
    rw [h, hu]
    push_cast
    rfl
  constructor
  · rw [mul64_fin_lit08]
    exact hround _ (by norm_num) (by norm_num)
  · rw [mul64_fin_lit12]
    exact hround _ (by norm_num) (by norm_num)

end ScaleBand

section ScaleWitness

variable {α : Type} [LinearOrderedField α] [FloorRing α]

/-- The number 2 is a binary64 value. -/
theorem round64_two : JSNum.round64 (2 : α) = JSNum.fin 2 := by
  have hu : JSNum.ulpExp (2 : α) = -51 := by
    have := ulpExp_of_normal (2 : α) 1 (by norm_num) (by norm_num) (by norm_num)
    rw [this]; norm_num
  have h := round64_eq_of_near (2 : α) (by norm_num) 4503599627370496
    (by rw [hu]; norm_num) (by rw [hu]; norm_num) (by rw [hu]; norm_num)
  rw [h, hu]
  congr 1
  norm_num

end ScaleWitness

/-! ## Claims on `solve` -/

section SolveClaims

variable {α : Type} [LinearOrderedField α] [FloorRing α]

/-- C2: in every run of `solve` in which the `finished` event is delivered and
`solvingDone()` returns false, `toPNG` is never called, `solver.stop()` is called (once)
and the promise returned to the caller is rejected, not fulfilled. -/
theorem solve_failure_skips_render (file output : String) (axes : Nat × Nat)
    (keyword : Keyword α) (pre post : List Event)
    (hpre : ∀ e ∈ pre, ∀ b, e ≠ Event.finished b) :
    toPNGCalls (solve file output axes keyword (pre ++ Event.finished false :: post)) = 0 ∧
      stopCalls (solve file output axes keyword (pre ++ Event.finished false :: post)) = 1 ∧
      (∃ r, (solve file output axes keyword (pre ++ Event.finished false :: post)).promise =
        PromiseState.rejected r) ∧
      (solve file output axes keyword (pre ++ Event.finished false :: post)).promise ≠
        PromiseState.fulfilled := by
  rw [solve_failed_state file output axes keyword pre post hpre]
  obtain ⟨_, _, _, _, hr, hp, hs⟩ := solveSetup_fresh file axes keyword
  simp only [toPNGCalls, stopCalls] at hp hs
  refine ⟨?_, ?_, ⟨Reason.undefined, ?_⟩, ?_⟩
  · simp [toPNGCalls, finishedHandler, List.countP_append, List.countP_cons, hp]
  · simp [stopCalls, finishedHandler, List.countP_append, List.countP_cons, hs]
  · simp [finishedHandler, solveSetup, PromiseState.settle]
  · simp [finishedHandler, solveSetup, PromiseState.settle]

/-- A run for C2: a log line, the failed completion, then a spurious second completion. -/
theorem solve_failure_skips_render_witness :
    toPNGCalls (solve (α := ℚ) "image.fits" "test.png" (4, 4) ⟨none, none, none⟩
        ([Event.log "extracting"] ++ Event.finished false :: [Event.finished true])) = 0 ∧
      stopCalls (solve (α := ℚ) "image.fits" "test.png" (4, 4) ⟨none, none, none⟩
        ([Event.log "extracting"] ++ Event.finished false :: [Event.finished true])) = 1 ∧
      (∃ r, (solve (α := ℚ) "image.fits" "test.png" (4, 4) ⟨none, none, none⟩
        ([Event.log "extracting"] ++ Event.finished false :: [Event.finished true])).promise =
        PromiseState.rejected r) ∧
      (solve (α := ℚ) "image.fits" "test.png" (4, 4) ⟨none, none, none⟩
        ([Event.log "extracting"] ++ Event.finished false :: [Event.finished true])).promise ≠
        PromiseState.fulfilled :=
  solve_failure_skips_render "image.fits" "test.png" (4, 4) ⟨none, none, none⟩
    [Event.log "extracting"] [Event.finished true] (by simp)

/-- C3, at the failing runs: `solver.stop()` is called exactly once when
`solvingDone()` is false and exactly once when `toPNG` fulfils, but when `solvingDone()`
is true and `toPNG` rejects (the encoder reports `err`, or the encoding succeeds and
`writeFile` rejects with `err`), `solver.stop()` is never called, whatever events
follow. -/
theorem solve_render_error_never_stops (file output : String) (axes : Nat × Nat)
    (keyword : Keyword α) (data : List Nat) (err : String)
    (written : Except String Unit) (post : List Event) :
    stopCalls (solve file output axes keyword (Event.finished false :: post)) = 1 ∧
      stopCalls (solve file output axes keyword
        (Event.finished true ::
          Event.pngSettled (Except.ok data) (Except.ok ()) :: post)) = 1 ∧
      stopCalls (solve file output axes keyword
        (Event.finished true :: Event.pngSettled (Except.error err) written :: post)) = 0 ∧
      stopCalls (solve file output axes keyword
        (Event.finished true ::
          Event.pngSettled (Except.ok data) (Except.error err) :: post)) = 0 := by
  obtain ⟨_, _, _, _, _, _, hs⟩ := solveSetup_fresh file axes keyword
  simp only [stopCalls] at hs
  refine ⟨?_, ?_, ?_, ?_⟩
  · have h := solve_failed_state file output axes keyword [] post (by simp)
    rw [List.nil_append] at h
    rw [h]
    simp [stopCalls, finishedHandler, List.countP_append, List.countP_cons, hs]
  · rw [solve_render_ok_state file output axes keyword data post]
    simp [stopCalls, finishedResume, finishedHandler, List.countP_append,
      List.countP_cons, hs]
  · rw [solve_render_error_state file output axes keyword (Except.error err) written err
      post rfl]
    simp [stopCalls, finishedHandler, List.countP_append, List.countP_cons, hs]
  · rw [solve_render_error_state file output axes keyword (Except.ok data)
      (Except.error err) err post rfl]
    simp [stopCalls, finishedHandler, List.countP_append, List.countP_cons, hs]

/-- C4: for every sequence of events delivered to `solve`, the completion handler runs
at most once, `toPNG` is called at most once and `solver.stop()` at most once; once a
`finished` event has been delivered no observer is registered, and a further `finished`
event leaves the whole state (outcome and calls) unchanged. -/
theorem solve_completion_at_most_once (file output : String) (axes : Nat × Nat)
    (keyword : Keyword α) (events : List Event) :
    handlerRuns (solve file output axes keyword events) ≤ 1 ∧
      toPNGCalls (solve file output axes keyword events) ≤ 1 ∧
      stopCalls (solve file output axes keyword events) ≤ 1 ∧
      ((∃ b, Event.finished b ∈ events) →
        (solve file output axes keyword events).listeners = [] ∧
        handlerRuns (solve file output axes keyword events) = 1 ∧
        ∀ b, solve file output axes keyword (events ++ [Event.finished b]) =
          solve file output axes keyword events) := by
  obtain ⟨hinv, hfired⟩ := foldl_step_fresh_or_fired output events
    (solveSetup file axes keyword) (Or.inl (solveSetup_fresh file axes keyword))
  refine ⟨?_, ?_, ?_, ?_⟩
  · rcases hinv with h | h
    · exact le_of_eq_of_le h.2.2.2.2.1 (Nat.zero_le 1)
    · exact le_of_eq h.2.1
  · rcases hinv with h | h
    · exact le_of_eq_of_le h.2.2.2.2.2.1 (Nat.zero_le 1)
    · exact h.2.2.1
  · rcases hinv with h | h
    · exact le_of_eq_of_le h.2.2.2.2.2.2 (Nat.zero_le 1)
    · have := h.2.2.2
      unfold solve
      omega
  · intro hex
    have h := hfired hex
    refine ⟨h.1, h.2.1, ?_⟩
    intro b
    unfold solve
    rw [List.foldl_append, List.foldl_cons, List.foldl_nil]
    exact step_finished_of_fired output b _ h.1

/-- A run for C4: a successful completion followed by a spurious second `finished`. -/
theorem solve_completion_at_most_once_witness :
    (solve (α := ℚ) "image.fits" "test.png" (4, 4) ⟨none, none, none⟩
        [Event.finished true, Event.finished false]).listeners = [] ∧
      handlerRuns (solve (α := ℚ) "image.fits" "test.png" (4, 4) ⟨none, none, none⟩
        [Event.finished true, Event.finished false]) = 1 ∧
      ∀ b, solve (α := ℚ) "image.fits" "test.png" (4, 4) ⟨none, none, none⟩
          ([Event.finished true, Event.finished false] ++ [Event.finished b]) =
        solve (α := ℚ) "image.fits" "test.png" (4, 4) ⟨none, none, none⟩
          [Event.finished true, Event.finished false] :=
  (solve_completion_at_most_once "image.fits" "test.png" (4, 4) ⟨none, none, none⟩
    [Event.finished true, Event.finished false]).2.2.2 ⟨true, by simp⟩

/-- C5, at the failing runs: when `solvingDone()` is true and `toPNG` rejects with `err`
(from the encoder, or from `writeFile`), the promise returned by `solve` is never
settled: it stays pending whatever events follow, no `reject` call is made, and `err`
only rejects the promise of the handler run, which nothing observes. -/
theorem solve_render_error_leaves_pending (file output : String) (axes : Nat × Nat)
    (keyword : Keyword α) (data : List Nat) (err : String)
    (written : Except String Unit) (post : List Event) :
    ((solve file output axes keyword
        (Event.finished true :: Event.pngSettled (Except.error err) written :: post)).promise
        = PromiseState.pending ∧
      (solve file output axes keyword
        (Event.finished true :: Event.pngSettled (Except.error err) written :: post)).unhandled
        = [err]) ∧
    ((solve file output axes keyword
        (Event.finished true ::
          Event.pngSettled (Except.ok data) (Except.error err) :: post)).promise
        = PromiseState.pending ∧
      (solve file output axes keyword
        (Event.finished true ::
          Event.pngSettled (Except.ok data) (Except.error err) :: post)).unhandled
        = [err]) := by
  constructor
  · rw [solve_render_error_state file output axes keyword (Except.error err) written err
      post rfl]
    simp [finishedHandler, solveSetup]
  · rw [solve_render_error_state file output axes keyword (Except.ok data)
      (Except.error err) err post rfl]
    simp [finishedHandler, solveSetup]

/-- C7, at the failing inputs: when the RA keyword is present with value 0, or the DEC
keyword is present with value 0, `solve` makes no `setPosition` call, whatever the other
keywords are. -/
theorem solve_zero_position_not_seeded (file : String) (axes : Nat × Nat)
    (other scale : JSVal α) :
    (∀ ra dec, Effect.setPosition ra dec ∉
      (solveSetup file axes ⟨some (JSNum.fin 0), other, scale⟩).trace) ∧
    (∀ ra dec, Effect.setPosition ra dec ∉
      (solveSetup file axes ⟨other, some (JSNum.fin 0), scale⟩).trace) := by
  constructor
  · intro ra dec
    simp only [solveSetup]
    rw [if_neg (by simp [JSVal.truthy, JSNum.truthy])]
    split_ifs <;> simp
  · intro ra dec
    simp only [solveSetup]
    rw [if_neg (by simp [JSVal.truthy, JSNum.truthy])]
    split_ifs <;> simp

/-- With the SCALE keyword present with value 0, the guard of line 115 is falsy and
`solve` makes no `setScale` call (the truthiness test of line 111 behaves the same way
on RA and DEC). -/
theorem solve_zero_scale_not_set :
    ¬ ∃ lo hi, Effect.setScale lo hi ScaleUnits.ARCSEC_PER_PIX ∈
      (solveSetup (α := ℚ) "image.fits" (4, 4)
        ⟨none, none, some (JSNum.fin 0)⟩).trace := by
  rintro ⟨lo, hi, h⟩
  simp [solveSetup, JSVal.truthy, JSNum.truthy] at h

/-- C8 as stated fails: with the SCALE keyword present with the smallest positive
binary64 value `2 ^ (-1074)` (about 5e-324), `solve` calls `setScale` with
`min = max = 2 ^ (-1074)`, a collapsed band for a non-zero scale. -/
theorem solve_scale_band_collapses :
    ¬ ∀ lo hi, Effect.setScale lo hi ScaleUnits.ARCSEC_PER_PIX ∈
        (solveSetup (α := ℚ) "image.fits" (4, 4)
          ⟨none, none, some (JSNum.fin ((2 : ℚ) ^ (-1074 : Int)))⟩).trace →
      lo ≠ hi := by
  intro h
  have hp := two_zpow_pos (α := ℚ) (-1074)
  obtain ⟨h08, h12⟩ := scale_collapse_min_subnormal (α := ℚ)
  refine h (JSNum.fin ((2 : ℚ) ^ (-1074 : Int))) (JSNum.fin ((2 : ℚ) ^ (-1074 : Int))) ?_ rfl
  have htruthy : JSVal.truthy (some (JSNum.fin ((2 : ℚ) ^ (-1074 : Int)))) = true := by
    simp only [JSVal.truthy, JSNum.truthy]
    exact decide_eq_true (ne_of_gt hp)
  simp only [solveSetup, htruthy, if_true, JSVal.toNumber, h08, h12]
  simp

/-- C8, as the code behaves: when the SCALE keyword is present with a non-zero binary64
value `x`, `solve` calls `setScale(x * 0.8, x * 1.2, ARCSEC_PER_PIX)`, the two products
being binary64 products (the exact products with the binary64 values of `0.8` and `1.2`,
rounded), before `solver.start()`. For `x > 0` the lower bound is a finite
number at most `x` and the upper bound is at least `x` (a finite number, or `Infinity`
on overflow). The two bounds differ as soon as `|x|` is at least `3 * 2 ^ (-1074)`.
When SCALE is absent, `setScale` is not called. -/
theorem solve_scale_band (file : String) (axes : Nat × Nat) (keyword : Keyword α) :
    (∀ x : α, keyword.SCALE = some (JSNum.fin x) → x ≠ 0 →
        JSNum.round64 x = JSNum.fin x →
      (∃ before after,
        (solveSetup file axes keyword).trace =
          before ++ Effect.setScale
            (JSNum.mul64 (JSNum.fin x) (JSNum.round64 0.8))
            (JSNum.mul64 (JSNum.fin x) (JSNum.round64 1.2))
            ScaleUnits.ARCSEC_PER_PIX :: after ∧
        Effect.start ∉ before ∧ Effect.start ∈ after) ∧
      (JSNum.mul64 (JSNum.fin x) (JSNum.round64 0.8) =
          JSNum.round64 (x * (3602879701896397 / 4503599627370496)) ∧
        JSNum.mul64 (JSNum.fin x) (JSNum.round64 1.2) =
          JSNum.round64 (x * (5404319552844595 / 4503599627370496))) ∧
      (0 < x →
        (∃ lo, JSNum.mul64 (JSNum.fin x) (JSNum.round64 0.8) = JSNum.fin lo ∧ lo ≤ x) ∧
        ((∃ hi, JSNum.mul64 (JSNum.fin x) (JSNum.round64 1.2) = JSNum.fin hi ∧ x ≤ hi) ∨
          JSNum.mul64 (JSNum.fin x) (JSNum.round64 1.2) = JSNum.inf false)) ∧
      (3 * (2 : α) ^ (-1074 : Int) ≤ |x| →
        JSNum.mul64 (JSNum.fin x) (JSNum.round64 0.8) ≠
          JSNum.mul64 (JSNum.fin x) (JSNum.round64 1.2))) ∧
    (keyword.SCALE = none →
      ∀ lo hi units, Effect.setScale lo hi units ∉ (solveSetup file axes keyword).trace) := by
  constructor
  · intro x hs hx hfix
    refine ⟨?_, ⟨mul64_fin_lit08 x, mul64_fin_lit12 x⟩, ?_, ?_⟩
    · refine ⟨[ Effect.newSolver axes.1 axes.2 1 (axes.1 * axes.2),
          Effect.setIndexFolderPaths "/home/ahinsing/.local/share/kstars/astrometry",
          Effect.setProperty "ExtractorType" "ExtractorType.INTERNAL",
          Effect.setProperty "SolverType" "SolverType.STELLARSOLVER",
          Effect.setProperty "ProcessType" "ProcessType.SOLVE",
          Effect.setProperty "LogToFile" "true",
          Effect.setProperty "LogFileName" "test.log",
          Effect.setParameterProfile "ParametersProfile.SINGLE_THREAD_SOLVING" ]
          ++ (if keyword.RA.truthy && keyword.DEC.truthy then
                [Effect.setPosition keyword.RA keyword.DEC]
              else []),
        [ Effect.on "finished", Effect.on "log",
          Effect.consoleLog ("start solving " ++ file), Effect.start ], ?_, ?_, ?_⟩
      · simp [solveSetup, hs, JSVal.truthy, JSNum.truthy, JSVal.toNumber, hx]
      · split_ifs <;> simp
      · simp
    · intro hpos
      obtain ⟨lo, hlo, _, hle⟩ := scale_lo_le x hpos hfix
      exact ⟨⟨lo, hlo, hle⟩, scale_hi_ge x hpos hfix⟩
    · intro h3
      exact scale_ne x hfix h3
  · intro habs lo hi units
    have hfalsy : keyword.SCALE.truthy = false := by
      simp [habs, JSVal.truthy]
    simp only [solveSetup, hfalsy, Bool.false_eq_true, if_false]
    split_ifs <;> simp

/-- A header for C8: SCALE present with the binary64 value 2. -/
theorem solve_scale_band_witness :
    (∃ before after,
        (solveSetup (α := ℚ) "image.fits" (4, 4) ⟨none, none, some (JSNum.fin 2)⟩).trace =
          before ++ Effect.setScale
            (JSNum.mul64 (JSNum.fin 2) (JSNum.round64 0.8))
            (JSNum.mul64 (JSNum.fin 2) (JSNum.round64 1.2))
            ScaleUnits.ARCSEC_PER_PIX :: after ∧
        Effect.start ∉ before ∧ Effect.start ∈ after) ∧
      (JSNum.mul64 (JSNum.fin (2 : ℚ)) (JSNum.round64 0.8) =
          JSNum.round64 (2 * (3602879701896397 / 4503599627370496)) ∧
        JSNum.mul64 (JSNum.fin (2 : ℚ)) (JSNum.round64 1.2) =
          JSNum.round64 (2 * (5404319552844595 / 4503599627370496))) ∧
      ((0 : ℚ) < 2 →
        (∃ lo, JSNum.mul64 (JSNum.fin (2 : ℚ)) (JSNum.round64 0.8) = JSNum.fin lo ∧
          lo ≤ 2) ∧
        ((∃ hi, JSNum.mul64 (JSNum.fin (2 : ℚ)) (JSNum.round64 1.2) = JSNum.fin hi ∧
            2 ≤ hi) ∨
          JSNum.mul64 (JSNum.fin (2 : ℚ)) (JSNum.round64 1.2) = JSNum.inf false)) ∧
      (3 * (2 : ℚ) ^ (-1074 : Int) ≤ |2| →
        JSNum.mul64 (JSNum.fin (2 : ℚ)) (JSNum.round64 0.8) ≠
          JSNum.mul64 (JSNum.fin (2 : ℚ)) (JSNum.round64 1.2)) :=
  (solve_scale_band (α := ℚ) "image.fits" (4, 4) ⟨none, none, some (JSNum.fin 2)⟩).1
    2 rfl (by norm_num) round64_two

/-- C9 as stated fails: after a failed completion the promise returned by `solve` is not
rejected with the reason "unable to solve image". -/
theorem solve_failure_reason_not_message :
    (solve (α := ℚ) "image.fits" "test.png" (4, 4) ⟨none, none, none⟩
        [Event.finished false]).promise ≠
      PromiseState.rejected (Reason.message "unable to solve image") := by
  have h := solve_failed_state (α := ℚ) "image.fits" "test.png" (4, 4) ⟨none, none, none⟩
    [] [] (by simp)
  simp only [List.nil_append] at h
  rw [h]
  simp [finishedHandler, solveSetup, PromiseState.settle]

/-- C9, as the code behaves: in every run of `solve` in which `solvingDone()` returns
false, the returned promise is rejected with no reason (`undefined`); the calls made end
with `solver.stop()`, the console line "Unable to solve image" and then `reject()`, in
that order, no `reject` call is made before them, and no `reject` call carries a
message. -/
theorem solve_failure_rejects_undefined (file output : String) (axes : Nat × Nat)
    (keyword : Keyword α) (pre post : List Event)
    (hpre : ∀ e ∈ pre, ∀ b, e ≠ Event.finished b) :
    (solve file output axes keyword (pre ++ Event.finished false :: post)).promise =
        PromiseState.rejected Reason.undefined ∧
      (∃ before,
        (solve file output axes keyword (pre ++ Event.finished false :: post)).trace =
          before ++ [Effect.stop, Effect.consoleLog "Unable to solve image",
            Effect.reject Reason.undefined] ∧
        ∀ r, Effect.reject r ∉ before) ∧
      Effect.consoleLog "Unable to solve image" ∈
        (solve file output axes keyword (pre ++ Event.finished false :: post)).trace ∧
      ∀ r, Effect.reject r ∈
          (solve file output axes keyword (pre ++ Event.finished false :: post)).trace →
        r = Reason.undefined := by
  rw [solve_failed_state file output axes keyword pre post hpre]
  refine ⟨?_, ?_, ?_, ?_⟩
  · simp [finishedHandler, solveSetup, PromiseState.settle]
  · refine ⟨(solveSetup file axes keyword).trace ++
        [Effect.removeAllListeners, Effect.consoleLog "solver finished"], ?_, ?_⟩
    · simp [finishedHandler]
    · intro r hr
      simp only [solveSetup] at hr
      split_ifs at hr <;> simp at hr
  · simp [finishedHandler]
  · intro r hr
    simp only [finishedHandler, solveSetup] at hr
    split_ifs at hr <;> simp at hr <;> exact hr

/-- A run for C9: the failed completion arrives after two log lines. -/
theorem solve_failure_rejects_undefined_witness :
    (solve (α := ℚ) "image.fits" "test.png" (4, 4) ⟨none, none, none⟩
        ([Event.log "a", Event.log "b"] ++ Event.finished false :: [])).promise =
        PromiseState.rejected Reason.undefined ∧
      (∃ before,
        (solve (α := ℚ) "image.fits" "test.png" (4, 4) ⟨none, none, none⟩
          ([Event.log "a", Event.log "b"] ++ Event.finished false :: [])).trace =
          before ++ [Effect.stop, Effect.consoleLog "Unable to solve image",
            Effect.reject Reason.undefined] ∧
        ∀ r, Effect.reject r ∉ before) ∧
      Effect.consoleLog "Unable to solve image" ∈
        (solve (α := ℚ) "image.fits" "test.png" (4, 4) ⟨none, none, none⟩
          ([Event.log "a", Event.log "b"] ++ Event.finished false :: [])).trace ∧
      ∀ r, Effect.reject r ∈
          (solve (α := ℚ) "image.fits" "test.png" (4, 4) ⟨none, none, none⟩
            ([Event.log "a", Event.log "b"] ++ Event.finished false :: [])).trace →
        r = Reason.undefined :=
  solve_failure_rejects_undefined "image.fits" "test.png" (4, 4) ⟨none, none, none⟩
    [Event.log "a", Event.log "b"] [] (by simp)

end SolveClaims

end AstRaw
